import Mathlib

/-!
# Ownership primitives of `advanced_cpp_learning`

A shallow embedding of

* `Smart Pointers and RAII/implement_unique_ptr.cpp` (class `UniquePtr<T>`),
* `Smart Pointers and RAII/test_shared.cpp` (the library-book program),
* `Smart Pointers and RAII/test_weak.cpp` (class `ChatRoom`),
* `Smart Pointers and RAII/RAII_file_handle.cpp` (class `MyFile`),
* `move_semantics_and_value_category/string.cpp` (class `MyString`),

followed by the properties established about them.

Raw pointers are addresses (`Nat`, with `0` for `nullptr`).  A `UniquePtr`
object is identified by the slot it occupies, so that the test
`this != &other` of the move assignment operator is a comparison of slots.
Every `delete` of a non-null pointer is appended to a log, so the number of
times a value has been disposed is the number of its occurrences in the log.
-/

namespace UniquePtr

/-- A raw pointer `T*`: an address; `0` is `nullptr`. -/
abbrev Ptr := Nat

/-- The null pointer. -/
def nullptr : Ptr := 0

/-- The state around the `UniquePtr<T>` objects of a program.
`objs[i]` is the member `objPtr` of the object in slot `i`;
`deleted` lists, oldest first, the non-null pointers handed to `delete`. -/
structure World where
  objs : List Ptr
  deleted : List Ptr
deriving DecidableEq, Repr

/-- The statement `delete p;`: nothing happens for `nullptr`, otherwise the
pointee is disposed (logged). -/
def del (p : Ptr) (d : List Ptr) : List Ptr :=
  if p = nullptr then d else d ++ [p]

/-- The member `objPtr` of the object in slot `i`. -/
def World.objPtr (w : World) (i : Nat) : Ptr := w.objs.getD i nullptr

/-- The assignment `objPtr = p` inside the object in slot `i`. -/
def World.setObjPtr (w : World) (i : Nat) (p : Ptr) : World :=
  { w with objs := w.objs.set i p }

/-- How many times `v` has been disposed so far. -/
def World.disposals (w : World) (v : Ptr) : Nat := w.deleted.count v

/-- `UniquePtr()`: a new object (in the next free slot) with `objPtr = nullptr`. -/
def ctorDefault (w : World) : World :=
  { w with objs := w.objs ++ [nullptr] }

/-- `UniquePtr(T * ptr)`: a new object with `objPtr = ptr`. -/
def ctorPtr (ptr : Ptr) (w : World) : World :=
  { w with objs := w.objs ++ [ptr] }

/-- `~UniquePtr()`: `delete objPtr;` (the member itself is not written). -/
def dtor (this : Nat) (w : World) : World :=
  { w with deleted := del (w.objPtr this) w.deleted }

/-- `UniquePtr& operator=(UniquePtr&& other)`:
if `this != &other`, then `delete objPtr; objPtr = other.objPtr;
other.objPtr = nullptr;`. -/
def moveAssign (this other : Nat) (w : World) : World :=
  if this ≠ other then
    let w1 : World := { w with deleted := del (w.objPtr this) w.deleted }
    let w2 := w1.setObjPtr this (w1.objPtr other)
    w2.setObjPtr other nullptr
  else
    w

/-- `UniquePtr(UniquePtr&& other)`: the new object (slot `w.objs.length`) gets
`objPtr = other.objPtr`, then `other.objPtr = nullptr`. -/
def moveCtor (other : Nat) (w : World) : World :=
  let w1 : World := { w with objs := w.objs ++ [w.objPtr other] }
  w1.setObjPtr other nullptr

/-- `T* get()`: `return objPtr;`. -/
def get (this : Nat) (w : World) : Ptr := w.objPtr this

/-- `explicit operator bool()`: `return (objPtr != nullptr);`. -/
def toBool (this : Nat) (w : World) : Bool := decide (w.objPtr this ≠ nullptr)

/-- `void release()`: `delete objPtr; objPtr = nullptr;`.  The function
returns nothing. -/
def release (this : Nat) (w : World) : World :=
  let w1 : World := { w with deleted := del (w.objPtr this) w.deleted }
  w1.setObjPtr this nullptr

/-- `void reset(T * newPtr = nullptr)`: `delete objPtr; objPtr = newPtr;`.
A call `reset()` is `reset this nullptr`. -/
def reset (this : Nat) (newPtr : Ptr) (w : World) : World :=
  let w1 : World := { w with deleted := del (w.objPtr this) w.deleted }
  w1.setObjPtr this newPtr

/-- A move operation of a program: a move construction from the object in
slot `src`, or the move assignment `dst = std::move(src)`. -/
inductive MoveOp where
  | construct (src : Nat)
  | assign (dst src : Nat)
deriving DecidableEq, Repr

/-- Run one move operation. -/
def MoveOp.apply : MoveOp → World → World
  | .construct src, w => moveCtor src w
  | .assign dst src, w => moveAssign dst src w

/-- Run a sequence of move operations, first to last. -/
def runMoves : List MoveOp → World → World
  | [], w => w
  | op :: ops, w => runMoves ops (op.apply w)

/-- The operations only name objects that exist when they run; `n` is the
number of objects constructed so far. -/
def wellFormed : List MoveOp → Nat → Bool
  | [], _ => true
  | .construct src :: ops, n => decide (src < n) && wellFormed ops (n + 1)
  | .assign dst src :: ops, n =>
      decide (dst < n) && decide (src < n) && wellFormed ops n

/-- Every move assignment of the sequence is a self-assignment or has an
empty destination at the time it runs. -/
def destEmptyOrSelf : List MoveOp → World → Bool
  | [], _ => true
  | .construct src :: ops, w => destEmptyOrSelf ops (moveCtor src w)
  | .assign dst src :: ops, w =>
      (decide (dst = src) || decide (w.objPtr dst = nullptr))
        && destEmptyOrSelf ops (moveAssign dst src w)

/-- Destroy the objects in slots `n-1, ..., 0` (reverse order of
construction, as at the end of a scope). -/
def destroyFrom : Nat → World → World
  | 0, w => w
  | n + 1, w => destroyFrom n (dtor n w)

/-- Destroy every object. -/
def destroyAll (w : World) : World := destroyFrom w.objs.length w

/-- The object in slot `i` exists, holds `v`, and every other object is
empty. -/
def SoleHolder (w : World) (i : Nat) (v : Ptr) : Prop :=
  i < w.objs.length ∧ w.objPtr i = v ∧
    ∀ j, j < w.objs.length → j ≠ i → w.objPtr j = nullptr

/-- The first lines of `main`: `UniquePtr<int> p1; UniquePtr<int> p2(new int(5));`
with the `int` allocated at address `a`. -/
def mainStart (a : Ptr) : World := ctorPtr a (ctorDefault ⟨[], []⟩)

/-- The world in which `p1 = std::move(p3)` of `main` runs: `p1` (slot 0)
and `p2` (slot 1) are empty and `p3` (slot 2) holds the `int` at `a`. -/
def mainBeforeAssign (a : Ptr) : World := moveCtor 1 (mainStart a)

end UniquePtr

namespace Shared

/-- Modelled from the spec: the control block of `std::shared_ptr` /
`std::weak_ptr` (standard library, not part of the sources), after §3
"ControlBlock": the strong count, the weak count, and the managed value, of
which we record how often it has been disposed; likewise for the block. -/
structure ControlBlock where
  strongCount : Nat
  weakCount : Nat
  valueDisposals : Nat
  blockDisposals : Nat
deriving DecidableEq, Repr

/-- The control blocks allocated so far, by address. -/
abbrev Heap := List ControlBlock

/-- Modelled from the spec: a `std::shared_ptr` handle: empty (`none`) or a
reference to the control block at an address. -/
abbrev SharedPtr := Option Nat

/-- Modelled from the spec: a `std::weak_ptr` handle: empty (`none`) or a
reference to the control block at an address. -/
abbrev WeakPtr := Option Nat

/-- Rewrite the control block at address `i`, if there is one. -/
def update (h : Heap) (i : Nat) (f : ControlBlock → ControlBlock) : Heap :=
  match h[i]? with
  | some cb => h.set i (f cb)
  | none => h

/-- The strong count stored at address `i` (`0` where there is no block). -/
def strongOf (h : Heap) (i : Nat) : Nat :=
  match h[i]? with
  | some cb => cb.strongCount
  | none => 0

/-- The number of disposals of the value managed at address `i`. -/
def valueDisposalsOf (h : Heap) (i : Nat) : Nat :=
  match h[i]? with
  | some cb => cb.valueDisposals
  | none => 0

/-- Modelled from the spec: `std::make_shared` after §4.2 "Construction from
a raw value: allocates a new ControlBlock with strongCount=1, weakCount=0". -/
def makeShared (h : Heap) : SharedPtr × Heap :=
  (some h.length, h ++ [⟨1, 0, 0, 0⟩])

/-- Modelled from the spec: the copy constructor of `std::shared_ptr` after
§4.2 "Copy: increments strongCount by 1; both copies thereafter observe the
same value and the same counts". -/
def copyShared (p : SharedPtr) (h : Heap) : SharedPtr × Heap :=
  match p with
  | some i => (some i, update h i (fun cb => { cb with strongCount := cb.strongCount + 1 }))
  | none => (none, h)

/-- Modelled from the spec: `use_count()` after §4.2 "returns current
strongCount; ... by convention returns 0 for an empty SharedOwner". -/
def useCount (p : SharedPtr) (h : Heap) : Nat :=
  match p with
  | some i => strongOf h i
  | none => 0

/-- Modelled from the spec: the destructor of `std::shared_ptr` after §4.2
"Destructor / detach: decrements strongCount; if it reaches 0, disposes the
value immediately; if weakCount is also 0 at that point, disposes the
ControlBlock". -/
def detach (p : SharedPtr) (h : Heap) : Heap :=
  match p with
  | some i =>
      update h i (fun cb =>
        let s := cb.strongCount - 1
        if s = 0 then
          { strongCount := s
            weakCount := cb.weakCount
            valueDisposals := cb.valueDisposals + 1
            blockDisposals :=
              if cb.weakCount = 0 then cb.blockDisposals + 1 else cb.blockDisposals }
        else
          { cb with strongCount := s })
  | none => h

/-- Modelled from the spec: `reset()` without argument after §4.2 "detaches
from the current ControlBlock ..., then optionally attaches": the handle
becomes empty. -/
def resetShared (p : SharedPtr) (h : Heap) : SharedPtr × Heap :=
  (none, detach p h)

/-- Modelled from the spec: `p == nullptr` after §4.2 "Equality/nullness
compares against the empty state". -/
def isNull (p : SharedPtr) : Bool := p.isNone

/-- Modelled from the spec: construction of a `std::weak_ptr` from a
`std::shared_ptr` after §4.3 "attaches to that SharedOwner's ControlBlock,
increments weakCount". -/
def weakFromShared (p : SharedPtr) (h : Heap) : WeakPtr × Heap :=
  match p with
  | some i => (some i, update h i (fun cb => { cb with weakCount := cb.weakCount + 1 }))
  | none => (none, h)

/-- Modelled from the spec: `lock()` after §4.3 "checks whether
strongCount > 0; if so, increments strongCount and returns a new SharedOwner
...; if strongCount == 0, returns an empty result". -/
def lock (wp : WeakPtr) (h : Heap) : SharedPtr × Heap :=
  match wp with
  | some i =>
      if 0 < strongOf h i then
        (some i, update h i (fun cb => { cb with strongCount := cb.strongCount + 1 }))
      else
        (none, h)
  | none => (none, h)

/-- Modelled from the spec: `expired()` after §4.3 "equivalent to lock()
returning empty, without constructing a SharedOwner". -/
def expired (wp : WeakPtr) (h : Heap) : Bool :=
  match wp with
  | some i => decide (strongOf h i = 0)
  | none => true

/-- Modelled from the spec: the destructor of `std::weak_ptr` after §4.3
"decrements weakCount; disposes the ControlBlock if both counts are now 0". -/
def weakDtor (wp : WeakPtr) (h : Heap) : Heap :=
  match wp with
  | some i =>
      update h i (fun cb =>
        let k := cb.weakCount - 1
        { cb with
          weakCount := k
          blockDisposals :=
            if k = 0 ∧ cb.strongCount = 0 then cb.blockDisposals + 1
            else cb.blockDisposals })
  | none => h

end Shared

namespace Shared

/-- The observable course of `main` in `test_shared.cpp`: the handles, the
heap after each statement, and the values of `use_count()` printed. -/
structure BookRun where
  reader1 : SharedPtr
  reader2 : SharedPtr
  reader3 : SharedPtr
  reader2AfterReset : SharedPtr
  afterMake : Heap
  afterCopy2 : Heap
  afterCopy3 : Heap
  afterReset : Heap
  afterDtor3 : Heap
  afterDtor2 : Heap
  afterDtor1 : Heap
  printed : List Nat
deriving DecidableEq, Repr

/-- `main` of `test_shared.cpp`, started with the control blocks `h0` already
on the heap:
`reader1 = std::make_shared<Book>(...)`, `reader2 = reader1`,
`reader3 = reader2`, `reader2.reset()`, a `use_count()` printed after each
step (the last one only `if (reader2 == nullptr)`), and at `return` the
destruction of `reader3`, `reader2`, `reader1` in that order. -/
def bookMain (h0 : Heap) : BookRun :=
  let r1 := makeShared h0
  let c1 := useCount r1.1 r1.2
  let r2 := copyShared r1.1 r1.2
  let c2 := useCount r2.1 r2.2
  let r3 := copyShared r2.1 r2.2
  let c3 := useCount r3.1 r3.2
  let r2x := resetShared r2.1 r3.2
  let c4 := if isNull r2x.1 then [useCount r1.1 r2x.2] else []
  let h5 := detach r3.1 r2x.2
  let h6 := detach r2x.1 h5
  let h7 := detach r1.1 h6
  { reader1 := r1.1, reader2 := r2.1, reader3 := r3.1, reader2AfterReset := r2x.1
    afterMake := r1.2, afterCopy2 := r2.2, afterCopy3 := r3.2, afterReset := r2x.2
    afterDtor3 := h5, afterDtor2 := h6, afterDtor1 := h7
    printed := [c1, c2, c3] ++ c4 }

/-- The state of the chat program: the control blocks of the users, the
member `users` of the `ChatRoom`, and the calls `receive(msg)` made so far,
each recorded as the address of the receiving user's control block and the
message. -/
structure ChatWorld where
  heap : Heap
  users : List WeakPtr
  received : List (Nat × String)
deriving DecidableEq, Repr

/-- `void join_user(std::shared_ptr<User> user)`, called as in `main` with a
named owner (`room.join_user(alice)`): the argument is copied into the
by-value parameter, `users.push_back(user)` stores a weak pointer made from
it, and the parameter is destroyed on return. -/
def join_user (user : SharedPtr) (w : ChatWorld) : ChatWorld :=
  let param := copyShared user w.heap
  let wp := weakFromShared param.1 param.2
  { w with heap := detach param.1 wp.2, users := w.users ++ [wp.1] }

/-- The loop of `broadcast`.  The iterator `it` splits `users` into the
entries before it (`kept`) and those from it on (`rest`).
`if (auto u = it->lock()) { u->receive(msg); it++; }` logs the call and
destroys `u` at the end of the block;
`else { it = users.erase(it); }` destroys the weak pointer. -/
def broadcastLoop (msg : String) :
    List WeakPtr → List WeakPtr → Heap → List (Nat × String) →
      List WeakPtr × Heap × List (Nat × String)
  | kept, [], h, log => (kept, h, log)
  | kept, it :: rest, h, log =>
    match lock it h with
    | (some u, h1) =>
        broadcastLoop msg (kept ++ [it]) rest (detach (some u) h1) (log ++ [(u, msg)])
    | (none, h1) =>
        broadcastLoop msg kept rest (weakDtor it h1) log

/-- `void broadcast(std::string msg)`: the loop from `users.begin()`. -/
def broadcast (msg : String) (w : ChatWorld) : ChatWorld :=
  let r := broadcastLoop msg [] w.users w.heap w.received
  { heap := r.2.1, users := r.1, received := r.2.2 }

/-- The receiving user of a delivery through the weak pointer `wp`. -/
def target (wp : WeakPtr) : Nat := wp.getD 0

end Shared

namespace RAII

/-- A `FILE*`: a handle; `0` is the null pointer. -/
abbrev Handle := Nat

/-- The constant `EOF` of `<cstdio>`. -/
def EOF : Int := -1

/-- A call of the C library made by a `MyFile`, with what it returned. -/
inductive Event where
  | fopen (filename mode : String) (result : Handle)
  | fputs (data : String) (file : Handle) (rc : Int)
  | fclose (file : Handle)
deriving DecidableEq, Repr

/-- How a member function ends: it returns, or it throws
`std::runtime_error(what)`. -/
inductive Outcome (α : Type) where
  | returned (a : α)
  | threw (what : String)
deriving DecidableEq, Repr

/-- The class `MyFile`: its only member is `FILE * file`. -/
structure MyFile where
  file : Handle
deriving DecidableEq, Repr

/-- `MyFile(const std::string& filename, const std::string& mode)`:
`file = std::fopen(...)`; `if (!file) throw std::runtime_error(...)`.
`fopenResult` is what `std::fopen` returns.  When the constructor throws
there is no object (and so no destructor call). -/
def ctor (filename mode : String) (fopenResult : Handle) (log : List Event) :
    Outcome MyFile × List Event :=
  let file := fopenResult
  let log1 := log ++ [Event.fopen filename mode file]
  if file = 0 then
    (Outcome.threw ("Failed to open file: " ++ filename), log1)
  else
    (Outcome.returned ⟨file⟩, log1)

/-- `~MyFile()`: `if (file) { std::fclose(file); }`. -/
def dtor (this : MyFile) (log : List Event) : List Event :=
  if this.file ≠ 0 then log ++ [Event.fclose this.file] else log

/-- `void writeString(const std::string data)`:
`int rc = std::fputs(data.c_str(), file); if (rc == EOF) throw ...`.
`rc` is what `std::fputs` returns.  The result is the outcome, the object
after the call and the log. -/
def writeString (this : MyFile) (data : String) (rc : Int) (log : List Event) :
    Outcome Unit × MyFile × List Event :=
  let log1 := log ++ [Event.fputs data this.file rc]
  if rc = EOF then
    (Outcome.threw "Failed to write", this, log1)
  else
    (Outcome.returned (), this, log1)

/-- A sequence of `writeString` calls on one object, each given with the
value its `std::fputs` returns; a call that throws leaves the object in
place for the calls (or the destruction) that follow. -/
def runWrites (this : MyFile) : List (String × Int) → List Event → MyFile × List Event
  | [], log => (this, log)
  | (data, rc) :: rest, log =>
      let r := writeString this data rc log
      runWrites r.2.1 rest r.2.2

/-- The life of one `MyFile`: construction, a sequence of `writeString`
calls, destruction.  A constructor that throws ends it at once. -/
def lifetime (filename mode : String) (fopenResult : Handle)
    (writes : List (String × Int)) : List Event :=
  match ctor filename mode fopenResult [] with
  | (Outcome.returned obj, log) =>
      let r := runWrites obj writes log
      dtor r.1 r.2
  | (Outcome.threw _, log) => log

/-- The event is a call of `std::fclose`. -/
def Event.isClose : Event → Bool
  | Event.fclose _ => true
  | _ => false

end RAII

namespace MyString

/-- A `char*`: an address; `0` is `nullptr`. -/
abbrev Ptr := Nat

/-- The null pointer. -/
def nullptr : Ptr := 0

/-- An array made by `new char[cap]`, with the C string it holds (the
characters before the terminator).  A fresh array is taken to hold the empty
string. -/
structure Buffer where
  cap : Nat
  chars : List Char
deriving DecidableEq, Repr

/-- The class `MyString`: members `char *m_data` and `size_t m_size`. -/
structure Obj where
  m_data : Ptr
  m_size : Nat
deriving DecidableEq, Repr

/-- The state around the `MyString` objects of a program: the objects by
slot, the arrays allocated so far (the array at address `a` is
`heap[a - 1]`), and the non-null pointers handed to `delete[]`, oldest
first. -/
structure World where
  objs : List Obj
  heap : List Buffer
  freed : List Ptr
deriving DecidableEq, Repr

/-- The object in slot `i`. -/
def World.obj (w : World) (i : Nat) : Obj := w.objs.getD i ⟨nullptr, 0⟩

/-- Assignment to the members of the object in slot `i`. -/
def World.setObj (w : World) (i : Nat) (o : Obj) : World :=
  { w with objs := w.objs.set i o }

/-- `size_t size() const`: `return m_size;`. -/
def size (this : Nat) (w : World) : Nat := (w.obj this).m_size

/-- `const char* c_str() const`: `return m_data;`. -/
def c_str (this : Nat) (w : World) : Ptr := (w.obj this).m_data

/-- `std::strlen(str)` for an argument `const char* str`: `none` is the null
pointer, for which the call is undefined; `some cs` points to the characters
`cs` followed by a terminator. -/
def strlen (str : Option (List Char)) : Option Nat := str.map List.length

/-- The C string stored at the address `p`; undefined (`none`) for the null
pointer, for an address never allocated and for a freed array. -/
def strAt (w : World) (p : Ptr) : Option (List Char) :=
  if p = nullptr ∨ p ∈ w.freed then none
  else (w.heap[p - 1]?).map Buffer.chars

/-- `new char[n]`: a fresh address and the world with the new array. -/
def newChars (n : Nat) (w : World) : Ptr × World :=
  (w.heap.length + 1, { w with heap := w.heap ++ [⟨n, []⟩] })

/-- `std::strcpy(dst, src)`: the array at `dst` now holds `src`; undefined
when `dst` is not a live array or is too small for `src` and its terminator. -/
def strcpy (dst : Ptr) (src : List Char) (w : World) : Option World :=
  if dst = nullptr ∨ dst ∈ w.freed then none
  else
    match w.heap[dst - 1]? with
    | some b =>
        if src.length + 1 ≤ b.cap then
          some { w with heap := w.heap.set (dst - 1) { b with chars := src } }
        else none
    | none => none

/-- The statement `delete[] p;`: nothing for `nullptr`, else the array is
freed (logged). -/
def delArr (p : Ptr) (freed : List Ptr) : List Ptr :=
  if p = nullptr then freed else freed ++ [p]

/-- `MyString(const char* str = "")`.  The branch
`if (str == nullptr) { m_data = nullptr; m_size = 0; }` does not return, so
control continues with `m_size = std::strlen(str);
m_data = new char[m_size+1]; std::strcpy(m_data, str);` in every case.
The result is `none` when the behaviour is undefined.  The default argument
is `some []`. -/
def ctor (str : Option (List Char)) (w : World) : Option World :=
  let this := w.objs.length
  let w0 : World := { w with objs := w.objs ++ [⟨nullptr, 0⟩] }
  (strlen str).bind fun n =>
    let w1 := w0.setObj this ⟨(w0.obj this).m_data, n⟩
    let a := newChars (n + 1) w1
    let w2 := a.2.setObj this ⟨a.1, n⟩
    str.bind fun cs => strcpy a.1 cs w2

/-- `~MyString()`: `if (m_size != 0) { delete[] m_data; }`. -/
def dtor (this : Nat) (w : World) : World :=
  if (w.obj this).m_size ≠ 0 then
    { w with freed := delArr (w.obj this).m_data w.freed }
  else w

/-- `MyString(const MyString& other)`: `m_size = other.m_size;` then, if
`m_size != 0`, `m_data = new char[m_size+1]; std::strcpy(m_data, other.c_str());`
else `m_data = nullptr;`.  The new object takes the next free slot. -/
def copyCtor (other : Nat) (w : World) : Option World :=
  let this := w.objs.length
  let m_size := (w.obj other).m_size
  let w0 : World := { w with objs := w.objs ++ [⟨nullptr, m_size⟩] }
  if m_size ≠ 0 then
    let a := newChars (m_size + 1) w0
    let w1 := a.2.setObj this ⟨a.1, m_size⟩
    (strAt w1 (c_str other w1)).bind fun cs => strcpy a.1 cs w1
  else
    some (w0.setObj this ⟨nullptr, m_size⟩)

/-- `MyString(MyString&& other) noexcept`: `m_size = other.size();
m_data = other.m_data; other.m_data = nullptr; other.m_size = 0;`. -/
def moveCtor (other : Nat) (w : World) : World :=
  let w0 : World := { w with objs := w.objs ++ [⟨c_str other w, size other w⟩] }
  w0.setObj other ⟨nullptr, 0⟩

/-- `MyString& operator=(const MyString& other)`: nothing for
`this == &other`; else `if (m_size != 0) delete[] m_data;`,
`m_size = other.size();` and the allocation and copy of the copy
constructor, or `m_data = nullptr` for size `0`. -/
def copyAssign (this other : Nat) (w : World) : Option World :=
  if this = other then some w
  else
    let w0 : World :=
      if (w.obj this).m_size ≠ 0 then
        { w with freed := delArr (w.obj this).m_data w.freed }
      else w
    let m_size := size other w0
    let w1 := w0.setObj this ⟨(w0.obj this).m_data, m_size⟩
    if m_size ≠ 0 then
      let a := newChars (m_size + 1) w1
      let w2 := a.2.setObj this ⟨a.1, m_size⟩
      (strAt w2 (c_str other w2)).bind fun cs => strcpy a.1 cs w2
    else
      some (w1.setObj this ⟨nullptr, m_size⟩)

/-- `MyString& operator=(MyString&& other) noexcept`: nothing for
`this == &other`; else `if (m_size != 0) delete[] m_data;`,
`m_size = other.size(); m_data = other.m_data;
other.m_data = nullptr; other.m_size = 0;`. -/
def moveAssign (this other : Nat) (w : World) : World :=
  if this = other then w
  else
    let w0 : World :=
      if (w.obj this).m_size ≠ 0 then
        { w with freed := delArr (w.obj this).m_data w.freed }
      else w
    let w1 := w0.setObj this ⟨c_str other w0, size other w0⟩
    w1.setObj other ⟨nullptr, 0⟩

/-- Destroy the objects in slots `n-1, ..., 0` (reverse order of
construction, as at the end of a scope). -/
def destroyFrom : Nat → World → World
  | 0, w => w
  | n + 1, w => destroyFrom n (dtor n w)

/-- Destroy every object. -/
def destroyAll (w : World) : World := destroyFrom w.objs.length w

/-- The addresses of the arrays that were allocated and never freed. -/
def leaked (w : World) : List Ptr :=
  ((List.range w.heap.length).map (· + 1)).filter (fun a => decide (a ∉ w.freed))

/-- The world before any `MyString` exists. -/
def emptyWorld : World := ⟨[], [], []⟩

/-- Every pointer in the program is null or the address of an allocated
array: the freed pointers and the members `m_data`. -/
def World.wf (w : World) : Bool :=
  w.freed.all (fun p => decide (p ≤ w.heap.length)) &&
    w.objs.all (fun o => decide (o.m_data ≤ w.heap.length))

/-- The first statements of `main`: `MyString s1("Hello"); MyString empty;`
(the result is `none` if a constructor is undefined). -/
def mainStart : Option World :=
  (ctor (some ['H', 'e', 'l', 'l', 'o']) emptyWorld).bind (ctor (some []))

/-- The world those statements produce: `s1` (slot 0) holds "Hello" in the
array at address 1, `empty` (slot 1) has size 0 and the one-character array
at address 2. -/
def helloWorld : World :=
  ⟨[⟨1, 5⟩, ⟨2, 0⟩], [⟨6, ['H', 'e', 'l', 'l', 'o']⟩, ⟨1, []⟩], []⟩

/-- An operation of a program on its `MyString` objects: a construction from
a non-null C string (`construct []` is the default argument `""`), a copy or
move construction from the object in slot `src`, or a copy or move
assignment `dst = src` / `dst = std::move(src)`. -/
inductive StrOp where
  | construct (str : List Char)
  | copyConstruct (src : Nat)
  | moveConstruct (src : Nat)
  | copyAssign (dst src : Nat)
  | moveAssign (dst src : Nat)
deriving DecidableEq, Repr

/-- Run one operation (`none` when its behaviour is undefined). -/
def StrOp.apply : StrOp → World → Option World
  | .construct str, w => ctor (some str) w
  | .copyConstruct src, w => copyCtor src w
  | .moveConstruct src, w => some (moveCtor src w)
  | .copyAssign dst src, w => MyString.copyAssign dst src w
  | .moveAssign dst src, w => some (MyString.moveAssign dst src w)

/-- Run a sequence of operations, first to last. -/
def runOps : List StrOp → World → Option World
  | [], w => some w
  | op :: ops, w => (op.apply w).bind (runOps ops)

/-- Does the operation make a new object? -/
def StrOp.constructs : StrOp → Bool
  | .construct _ => true
  | .copyConstruct _ => true
  | .moveConstruct _ => true
  | .copyAssign _ _ => false
  | .moveAssign _ _ => false

/-- The operation only names objects that exist; `n` is the number of objects
constructed so far. -/
def StrOp.inRange : StrOp → Nat → Bool
  | .construct _, _ => true
  | .copyConstruct src, n => decide (src < n)
  | .moveConstruct src, n => decide (src < n)
  | .copyAssign dst src, n => decide (dst < n) && decide (src < n)
  | .moveAssign dst src, n => decide (dst < n) && decide (src < n)

/-- The operations only name objects that exist when they run. -/
def opsWellFormed : List StrOp → Nat → Bool
  | [], _ => true
  | op :: ops, n =>
      op.inRange n && opsWellFormed ops (if op.constructs then n + 1 else n)

/-- The size of an object agrees with its buffer: a null `m_data` goes with
`m_size == 0`, and a non-null `m_data` is a live array holding exactly
`m_size` characters before the terminator. -/
def GoodObj (w : World) (o : Obj) : Prop :=
  (o.m_data = nullptr → o.m_size = 0) ∧
    (o.m_data ≠ nullptr → ∃ cs, strAt w o.m_data = some cs ∧ o.m_size = cs.length)

/-- The state invariant of a program that only constructs, copies and moves:
freed pointers are allocated addresses, every object agrees with its buffer,
and no two objects share a buffer. -/
def Inv (w : World) : Prop :=
  (∀ p ∈ w.freed, p ≤ w.heap.length) ∧
    (∀ i, GoodObj w (w.obj i)) ∧
    (∀ i j, i ≠ j → (w.obj i).m_data ≠ nullptr → (w.obj i).m_data ≠ (w.obj j).m_data)

/-- The operations of `main` in `string.cpp`, in order: `s1("Hello")` (slot 0),
`empty` (1), `s2 = s1` (copy construction, 2), `s3("World")` (3), `s3 = s2`,
`s1 = s1`, `s4 = std::move(s1)` (4), `s5("Temporary")` (5),
`s5 = std::move(s2)`. -/
def mainOps : List StrOp :=
  [ .construct ['H', 'e', 'l', 'l', 'o'], .construct [], .copyConstruct 0,
    .construct ['W', 'o', 'r', 'l', 'd'], .copyAssign 3 2, .copyAssign 0 0,
    .moveConstruct 0, .construct ['T', 'e', 'm', 'p', 'o', 'r', 'a', 'r', 'y'],
    .moveAssign 5 2 ]

end MyString

/-! ## `UniquePtr`: single operations -/

namespace UniquePtr

theorem objPtr_setObjPtr (w : World) (i j : Nat) (p : Ptr) :
    (w.setObjPtr i p).objPtr j =
      if i = j ∧ i < w.objs.length then p else w.objPtr j := by
  simp only [World.objPtr, World.setObjPtr, List.getD_eq_getElem?_getD, List.getElem?_set]
  by_cases hij : i = j
  · subst hij
    by_cases hi : i < w.objs.length
    · simp [hi]
    · have : w.objs[i]? = none := List.getElem?_eq_none (by omega)
      simp [hi, this]
  · simp [hij]

theorem length_setObjPtr (w : World) (i : Nat) (p : Ptr) :
    (w.setObjPtr i p).objs.length = w.objs.length := by
  simp [World.setObjPtr]

theorem deleted_setObjPtr (w : World) (i : Nat) (p : Ptr) :
    (w.setObjPtr i p).deleted = w.deleted := rfl

/-- C1 (what the code does): on an object holding a non-null `v`, `release()`
hands `v` to `delete` - the disposal count of `v` goes up by one - and leaves
the object empty; nothing is returned to the caller. -/
theorem release_disposes_held (w : World) (p : Nat) (v : Ptr)
    (hp : p < w.objs.length) (hv : get p w = v) (hne : v ≠ nullptr) :
    (release p w).deleted = w.deleted ++ [v] ∧
      (release p w).disposals v = w.disposals v + 1 ∧
      get p (release p w) = nullptr := by
  have hv' : w.objPtr p = v := hv
  refine ⟨?_, ?_, ?_⟩
  · simp [release, deleted_setObjPtr, del, hv', hne]
  · simp [release, World.disposals, deleted_setObjPtr, del, hv', hne]
  · simp [get, release, objPtr_setObjPtr, hp]

theorem release_disposes_held_witness :
    get 1 (mainStart 100) = 100 ∧
      (release 1 (mainStart 100)).deleted = [100] ∧
      (release 1 (mainStart 100)).disposals 100 = 1 ∧
      get 1 (release 1 (mainStart 100)) = nullptr := by
  have h := release_disposes_held (mainStart 100) 1 100 (by decide) (by decide) (by decide)
  exact ⟨by decide, h.1, h.2.1, h.2.2⟩

/-- C2: move-constructing a new object from an existing object `src` gives the
new object the pointer `src` held, leaves `src` empty (`get() == nullptr`,
`operator bool` false), and hands nothing to `delete`. -/
theorem moveCtor_transfers (w : World) (src : Nat) (hs : src < w.objs.length) :
    get w.objs.length (moveCtor src w) = get src w ∧
      get src (moveCtor src w) = nullptr ∧
      toBool src (moveCtor src w) = false ∧
      (moveCtor src w).deleted = w.deleted := by
  have hlen : src < (w.objs ++ [w.objPtr src]).length := by simp; omega
  have hne : ¬ src = w.objs.length := by omega
  refine ⟨?_, ?_, ?_, ?_⟩
  · simp only [get, moveCtor, objPtr_setObjPtr]
    simp [hne, World.objPtr]
  · simp [get, moveCtor, objPtr_setObjPtr, hlen]
    intro h; omega
  · simp [toBool, moveCtor, objPtr_setObjPtr, hlen]
    intro h; omega
  · simp [moveCtor, deleted_setObjPtr]

theorem moveCtor_transfers_witness :
    get 2 (moveCtor 1 (mainStart 100)) = 100 ∧
      get 1 (moveCtor 1 (mainStart 100)) = nullptr ∧
      toBool 1 (moveCtor 1 (mainStart 100)) = false ∧
      (moveCtor 1 (mainStart 100)).deleted = [] :=
  moveCtor_transfers (mainStart 100) 1 (by decide)

/-- C3: for two distinct existing objects, `dst = std::move(src)` hands to
`delete` exactly the pointer `dst` held before (nothing if `dst` was empty),
makes `dst` hold the pointer `src` held before and leaves `src` empty. -/
theorem moveAssign_transfers (w : World) (dst src : Nat)
    (hd : dst < w.objs.length) (hs : src < w.objs.length) (hne : dst ≠ src) :
    (w.objPtr dst = nullptr → (moveAssign dst src w).deleted = w.deleted) ∧
      (w.objPtr dst ≠ nullptr →
        (moveAssign dst src w).deleted = w.deleted ++ [w.objPtr dst]) ∧
      get dst (moveAssign dst src w) = get src w ∧
      get src (moveAssign dst src w) = nullptr := by
  have hne' : ¬ src = dst := fun h => hne h.symm
  refine ⟨?_, ?_, ?_, ?_⟩
  · intro h0
    simp [moveAssign, hne, deleted_setObjPtr, del, h0]
  · intro h0
    simp [moveAssign, hne, deleted_setObjPtr, del, h0]
  · simp only [get, moveAssign, hne, ne_eq, not_false_eq_true, if_true, objPtr_setObjPtr,
      length_setObjPtr]
    simp [hne', hd, World.objPtr]
  · simp only [get, moveAssign, hne, ne_eq, not_false_eq_true, if_true, objPtr_setObjPtr,
      length_setObjPtr]
    simp [hs]

theorem moveAssign_transfers_witness :
    ((mainBeforeAssign 100).objPtr 0 = nullptr →
        (moveAssign 0 2 (mainBeforeAssign 100)).deleted = (mainBeforeAssign 100).deleted) ∧
      ((mainBeforeAssign 100).objPtr 0 ≠ nullptr →
        (moveAssign 0 2 (mainBeforeAssign 100)).deleted =
          (mainBeforeAssign 100).deleted ++ [(mainBeforeAssign 100).objPtr 0]) ∧
      get 0 (moveAssign 0 2 (mainBeforeAssign 100)) = get 2 (mainBeforeAssign 100) ∧
      get 2 (moveAssign 0 2 (mainBeforeAssign 100)) = nullptr :=
  moveAssign_transfers (mainBeforeAssign 100) 0 2 (by decide) (by decide) (by decide)

/-- C4: the self-move-assignment `x = std::move(x)` changes nothing: `x` holds
the pointer it held before, every other object is untouched and nothing is
handed to `delete`. -/
theorem moveAssign_self (w : World) (x : Nat) :
    moveAssign x x w = w ∧ get x (moveAssign x x w) = get x w ∧
      (moveAssign x x w).deleted = w.deleted := by
  simp [moveAssign]

/-- C6: on an existing object `p`, `reset(q)` hands to `delete` exactly the
pointer `p` held before the call (nothing if `p` was empty), and afterwards
`p.get() == q`; `q = nullptr` is the call without argument. -/
theorem reset_disposes_old_adopts_new (w : World) (p : Nat) (q : Ptr)
    (hp : p < w.objs.length) :
    (w.objPtr p = nullptr → (reset p q w).deleted = w.deleted) ∧
      (w.objPtr p ≠ nullptr → (reset p q w).deleted = w.deleted ++ [w.objPtr p]) ∧
      get p (reset p q w) = q := by
  refine ⟨?_, ?_, ?_⟩
  · intro h0
    simp [reset, deleted_setObjPtr, del, h0]
  · intro h0
    simp [reset, deleted_setObjPtr, del, h0]
  · simp [get, reset, objPtr_setObjPtr, hp]

theorem reset_disposes_old_adopts_new_witness :
    ((mainStart 100).objPtr 1 = nullptr →
        (reset 1 200 (mainStart 100)).deleted = (mainStart 100).deleted) ∧
      ((mainStart 100).objPtr 1 ≠ nullptr →
        (reset 1 200 (mainStart 100)).deleted =
          (mainStart 100).deleted ++ [(mainStart 100).objPtr 1]) ∧
      get 1 (reset 1 200 (mainStart 100)) = 200 :=
  reset_disposes_old_adopts_new (mainStart 100) 1 200 (by decide)

/-! ## `UniquePtr`: sequences of moves -/

theorem length_moveCtor (w : World) (src : Nat) :
    (moveCtor src w).objs.length = w.objs.length + 1 := by
  simp [moveCtor, World.setObjPtr]

theorem length_moveAssign (w : World) (dst src : Nat) :
    (moveAssign dst src w).objs.length = w.objs.length := by
  unfold moveAssign
  split <;> simp [World.setObjPtr]

theorem objPtr_lt (w : World) (j : Nat) (hj : j < w.objs.length) :
    w.objPtr j = w.objs[j] := by
  simp [World.objPtr, hj]

theorem objPtr_moveCtor (w : World) (src j : Nat) (hs : src < w.objs.length) :
    (moveCtor src w).objPtr j =
      if j = src then nullptr
      else if j = w.objs.length then w.objPtr src else w.objPtr j := by
  simp only [moveCtor, objPtr_setObjPtr]
  by_cases hj : j = src
  · subst hj
    simp; omega
  · have hj' : ¬ src = j := fun h => hj h.symm
    simp only [hj, hj', false_and, if_false]
    by_cases hl : j = w.objs.length
    · subst hl
      simp [World.objPtr]
    · simp only [hl, if_false, World.objPtr, List.getD_eq_getElem?_getD]
      by_cases hlt : j < w.objs.length
      · rw [List.getElem?_append_left hlt]
      · have h1 : (w.objs ++ [w.objs[src]?.getD nullptr])[j]? = none :=
          List.getElem?_eq_none (by simp; omega)
        have h2 : w.objs[j]? = none := List.getElem?_eq_none (by omega)
        rw [h1, h2]

theorem objPtr_moveAssign (w : World) (dst src j : Nat)
    (hd : dst < w.objs.length) (hs : src < w.objs.length) (hne : dst ≠ src) :
    (moveAssign dst src w).objPtr j =
      if j = src then nullptr
      else if j = dst then w.objPtr src else w.objPtr j := by
  simp only [moveAssign, hne, ne_eq, not_false_eq_true, if_true, objPtr_setObjPtr,
    length_setObjPtr]
  by_cases hj : j = src
  · subst hj
    simp [hs]
  · have hj' : ¬ src = j := fun h => hj h.symm
    simp only [hj, hj', false_and, if_false]
    by_cases hjd : j = dst
    · subst hjd
      simp [hd, World.objPtr]
    · have hjd' : ¬ dst = j := fun h => hjd h.symm
      simp [hjd, hjd', World.objPtr]

theorem deleted_moveCtor (w : World) (src : Nat) :
    (moveCtor src w).deleted = w.deleted := rfl

theorem deleted_moveAssign (w : World) (dst src : Nat) (hne : dst ≠ src) :
    (moveAssign dst src w).deleted = del (w.objPtr dst) w.deleted := by
  simp [moveAssign, hne, deleted_setObjPtr]

theorem soleHolder_moveCtor (w : World) (v : Ptr) (src : Nat)
    (hs : src < w.objs.length) (h : ∃ i, SoleHolder w i v) :
    ∃ i, SoleHolder (moveCtor src w) i v := by
  obtain ⟨i, hi, hiv, hoth⟩ := h
  by_cases hsi : src = i
  · subst hsi
    refine ⟨w.objs.length, ?_, ?_, ?_⟩
    · rw [length_moveCtor]; omega
    · rw [objPtr_moveCtor w src _ hs]
      have : ¬ w.objs.length = src := by omega
      simp [this, hiv]
    · intro j hj hjn
      rw [length_moveCtor] at hj
      rw [objPtr_moveCtor w src _ hs]
      by_cases hjs : j = src
      · simp [hjs]
      · simp only [hjs, hjn, if_false]
        exact hoth j (by omega) hjs
  · have hsrc0 : w.objPtr src = nullptr := hoth src hs hsi
    refine ⟨i, ?_, ?_, ?_⟩
    · rw [length_moveCtor]; omega
    · rw [objPtr_moveCtor w src _ hs]
      have h1 : ¬ i = src := fun h => hsi h.symm
      have h2 : ¬ i = w.objs.length := by omega
      simp [h1, h2, hiv]
    · intro j hj hjn
      rw [length_moveCtor] at hj
      rw [objPtr_moveCtor w src _ hs]
      by_cases hjs : j = src
      · simp [hjs]
      · by_cases hjl : j = w.objs.length
        · simp [hjs, hjl, hsrc0]
        · simp only [hjs, hjl, if_false]
          exact hoth j (by omega) hjn

theorem soleHolder_moveAssign (w : World) (v : Ptr) (dst src : Nat)
    (hd : dst < w.objs.length) (hs : src < w.objs.length) (hne : dst ≠ src)
    (hempty : w.objPtr dst = nullptr) (h : ∃ i, SoleHolder w i v) :
    ∃ i, SoleHolder (moveAssign dst src w) i v := by
  obtain ⟨i, hi, hiv, hoth⟩ := h
  by_cases hsi : src = i
  · subst hsi
    refine ⟨dst, ?_, ?_, ?_⟩
    · rw [length_moveAssign]; exact hd
    · rw [objPtr_moveAssign w dst src _ hd hs hne]
      simp [hne, hiv]
    · intro j hj hjn
      rw [length_moveAssign] at hj
      rw [objPtr_moveAssign w dst src _ hd hs hne]
      by_cases hjs : j = src
      · simp [hjs]
      · simp only [hjs, hjn, if_false]
        exact hoth j hj hjs
  · have hsrc0 : w.objPtr src = nullptr := hoth src hs hsi
    refine ⟨i, ?_, ?_, ?_⟩
    · rw [length_moveAssign]; exact hi
    · rw [objPtr_moveAssign w dst src _ hd hs hne]
      have h1 : ¬ i = src := fun h => hsi h.symm
      by_cases hid : i = dst
      · subst hid
        simp [h1, hsrc0, ← hiv, hempty]
      · simp [h1, hid, hiv]
    · intro j hj hjn
      rw [length_moveAssign] at hj
      rw [objPtr_moveAssign w dst src _ hd hs hne]
      by_cases hjs : j = src
      · simp [hjs]
      · by_cases hjd : j = dst
        · simp [hjs, hjd, hsrc0]
        · simp only [hjs, hjd, if_false]
          exact hoth j hj hjn

/-- C5 (as stated, refuted): `a` (slot 0) is the only non-empty object and holds
the value at address 7, `b` (slot 1) is empty; after the move assignment
`a = std::move(b)` no object is non-empty and the value has been disposed. -/
theorem moves_can_dispose_sole_value :
    SoleHolder ⟨[7, 0], []⟩ 0 7 ∧ 7 ∉ (World.mk [7, 0] []).deleted ∧
      wellFormed [MoveOp.assign 0 1] 2 = true ∧
      (runMoves [MoveOp.assign 0 1] ⟨[7, 0], []⟩).objs = [0, 0] ∧
      (runMoves [MoveOp.assign 0 1] ⟨[7, 0], []⟩).deleted = [7] ∧
      ¬ ((∃ i, SoleHolder (runMoves [MoveOp.assign 0 1] ⟨[7, 0], []⟩) i 7) ∧
          7 ∉ (runMoves [MoveOp.assign 0 1] ⟨[7, 0], []⟩).deleted) := by
  refine ⟨⟨by decide, by decide, ?_⟩, by decide, by decide, by decide, by decide, ?_⟩
  · intro j hj hj0
    have hj1 : j = 1 := by
      have : j < 2 := hj
      omega
    subst hj1
    decide
  · intro h
    exact h.2 (by decide)

theorem runMoves_soleHolder (ops : List MoveOp) (w : World) (v : Ptr)
    (h0 : ∃ i, SoleHolder w i v) (hlive : v ∉ w.deleted)
    (hwf : wellFormed ops w.objs.length = true)
    (hsafe : destEmptyOrSelf ops w = true) :
    (∃ i, SoleHolder (runMoves ops w) i v) ∧ v ∉ (runMoves ops w).deleted ∧
      (runMoves ops w).deleted = w.deleted := by
  induction ops generalizing w with
  | nil => exact ⟨h0, hlive, rfl⟩
  | cons op ops ih =>
    cases op with
    | construct src =>
      simp only [wellFormed, Bool.and_eq_true, decide_eq_true_eq] at hwf
      simp only [destEmptyOrSelf] at hsafe
      have hstep := soleHolder_moveCtor w v src hwf.1 h0
      have hw2 : wellFormed ops (moveCtor src w).objs.length = true := by
        rw [length_moveCtor]; exact hwf.2
      have := ih (moveCtor src w) hstep (by rw [deleted_moveCtor]; exact hlive) hw2 hsafe
      simpa [runMoves, MoveOp.apply, deleted_moveCtor] using this
    | assign dst src =>
      simp only [wellFormed, Bool.and_eq_true, decide_eq_true_eq] at hwf
      simp only [destEmptyOrSelf, Bool.and_eq_true, Bool.or_eq_true, decide_eq_true_eq]
        at hsafe
      obtain ⟨⟨hd, hs⟩, hrest⟩ := hwf
      obtain ⟨hcase, hsafe2⟩ := hsafe
      by_cases hne : dst = src
      · subst hne
        have hid : moveAssign dst dst w = w := by simp [moveAssign]
        rw [hid] at hsafe2
        have := ih w h0 hlive hrest hsafe2
        simpa [runMoves, MoveOp.apply, hid] using this
      · have hempty : w.objPtr dst = nullptr := by
          rcases hcase with h | h
          · exact absurd h hne
          · exact h
        have hstep := soleHolder_moveAssign w v dst src hd hs hne hempty h0
        have hdel : (moveAssign dst src w).deleted = w.deleted := by
          rw [deleted_moveAssign w dst src hne, hempty]; rfl
        have hw2 : wellFormed ops (moveAssign dst src w).objs.length = true := by
          rw [length_moveAssign]; exact hrest
        have := ih (moveAssign dst src w) hstep (by rw [hdel]; exact hlive) hw2 hsafe2
        simpa [runMoves, MoveOp.apply, hdel] using this

/-- C5 (amended): starting with exactly one non-empty object, holding `v`, after
every sequence of move constructions and move assignments among existing
objects in which each move assignment is a self-assignment or has an empty
destination, exactly one object is non-empty, it holds `v`, and nothing has
been handed to `delete` by the moves (so `v` is not disposed). -/
theorem moves_keep_sole_holder (ops : List MoveOp) (w : World) (v : Ptr)
    (hv : v ≠ nullptr) (h0 : ∃ i, SoleHolder w i v) (hlive : v ∉ w.deleted)
    (hwf : wellFormed ops w.objs.length = true)
    (hsafe : destEmptyOrSelf ops w = true) :
    (∃ i, SoleHolder (runMoves ops w) i v ∧ toBool i (runMoves ops w) = true) ∧
      v ∉ (runMoves ops w).deleted ∧
      (runMoves ops w).deleted = w.deleted := by
  obtain ⟨⟨i, hi⟩, h2, h3⟩ := runMoves_soleHolder ops w v h0 hlive hwf hsafe
  refine ⟨⟨i, hi, ?_⟩, h2, h3⟩
  simp [toBool, hi.2.1, hv]

theorem moves_keep_sole_holder_witness :
    (∃ i, SoleHolder
        (runMoves [MoveOp.construct 1, MoveOp.assign 0 2, MoveOp.assign 0 0] (mainStart 100))
        i 100 ∧
        toBool i
          (runMoves [MoveOp.construct 1, MoveOp.assign 0 2, MoveOp.assign 0 0]
            (mainStart 100)) = true) ∧
      100 ∉ (runMoves [MoveOp.construct 1, MoveOp.assign 0 2, MoveOp.assign 0 0]
        (mainStart 100)).deleted ∧
      (runMoves [MoveOp.construct 1, MoveOp.assign 0 2, MoveOp.assign 0 0]
        (mainStart 100)).deleted = (mainStart 100).deleted :=
  moves_keep_sole_holder [MoveOp.construct 1, MoveOp.assign 0 2, MoveOp.assign 0 0]
    (mainStart 100) 100 (by decide)
    ⟨1, by decide, by decide, by
      intro j hj hj1
      have : j < 2 := hj
      have hj0 : j = 0 := by omega
      subst hj0
      decide⟩
    (by decide) (by decide) (by decide)

/-! ## `UniquePtr`: every value is disposed exactly once -/

theorem count_del (p v : Ptr) (d : List Ptr) (hv : v ≠ nullptr) :
    (del p d).count v = d.count v + (if p = v then 1 else 0) := by
  unfold del
  by_cases hp : p = nullptr
  · subst hp
    have h0 : ¬ nullptr = v := fun h => hv h.symm
    simp [h0]
  · by_cases hpv : p = v
    · subst hpv
      simp [hp]
    · simp [hp, hpv, List.count_singleton]

theorem count_objs_moveCtor (w : World) (src : Nat) (v : Ptr)
    (hs : src < w.objs.length) (hv : v ≠ nullptr) :
    (moveCtor src w).objs.count v = w.objs.count v := by
  have hlen : src < (w.objs ++ [w.objPtr src]).length := by simp; omega
  have h0 : ¬ (nullptr = v) := fun h => hv h.symm
  simp only [moveCtor, World.setObjPtr]
  rw [List.count_set _ _ _ _ hlen]
  rw [List.getElem_append_left hs, objPtr_lt w src hs]
  simp [h0, List.count_singleton]

theorem count_objs_moveAssign (w : World) (dst src : Nat) (v : Ptr)
    (hd : dst < w.objs.length) (hs : src < w.objs.length) (hne : dst ≠ src)
    (hv : v ≠ nullptr) :
    (moveAssign dst src w).objs.count v + (if w.objPtr dst = v then 1 else 0) =
      w.objs.count v := by
  have h0 : ¬ (nullptr = v) := fun h => hv h.symm
  have hs' : src < (w.objs.set dst (w.objPtr src)).length := by simp; exact hs
  simp only [moveAssign, hne, ne_eq, not_false_eq_true, if_true, World.setObjPtr]
  have hobj : (World.mk w.objs (del (w.objPtr dst) w.deleted)).objPtr src = w.objPtr src := rfl
  rw [hobj, List.count_set _ _ _ _ hs', List.count_set _ _ _ _ hd]
  rw [List.getElem_set_ne hne]
  simp only [objPtr_lt w src hs, objPtr_lt w dst hd]
  have hmem : (if w.objs[dst] = v then 1 else 0) ≤ w.objs.count v := by
    split
    · rename_i h
      have : v ∈ w.objs := h ▸ List.getElem_mem hd
      exact List.count_pos_iff.mpr this
    · omega
  simp only [beq_iff_eq, h0, if_false]
  have key : ∀ A x y : Nat, x ≤ A → A - x + y - y + 0 + x = A := by
    intro A x y hx
    omega
  exact key _ _ _ hmem

theorem disposals_moveAssign (w : World) (dst src : Nat) (v : Ptr)
    (hv : v ≠ nullptr) :
    (moveAssign dst src w).deleted.count v =
      w.deleted.count v + (if dst ≠ src ∧ w.objPtr dst = v then 1 else 0) := by
  by_cases hne : dst = src
  · simp [moveAssign, hne]
  · rw [deleted_moveAssign w dst src hne, count_del _ _ _ hv]
    simp [hne]

/-- The number of objects holding `v` plus the number of disposals of `v` is
not changed by a sequence of moves among existing objects. -/
theorem runMoves_conserves (ops : List MoveOp) (w : World) (v : Ptr)
    (hv : v ≠ nullptr) (hwf : wellFormed ops w.objs.length = true) :
    (runMoves ops w).objs.count v + (runMoves ops w).deleted.count v =
      w.objs.count v + w.deleted.count v := by
  induction ops generalizing w with
  | nil => rfl
  | cons op ops ih =>
    cases op with
    | construct src =>
      simp only [wellFormed, Bool.and_eq_true, decide_eq_true_eq] at hwf
      have hw2 : wellFormed ops (moveCtor src w).objs.length = true := by
        rw [length_moveCtor]; exact hwf.2
      have := ih (moveCtor src w) hw2
      rw [count_objs_moveCtor w src v hwf.1 hv, deleted_moveCtor] at this
      simpa [runMoves, MoveOp.apply] using this
    | assign dst src =>
      simp only [wellFormed, Bool.and_eq_true, decide_eq_true_eq] at hwf
      obtain ⟨⟨hd, hs⟩, hrest⟩ := hwf
      have hw2 : wellFormed ops (moveAssign dst src w).objs.length = true := by
        rw [length_moveAssign]; exact hrest
      have hrec := ih (moveAssign dst src w) hw2
      simp only [runMoves, MoveOp.apply]
      rw [hrec]
      by_cases hne : dst = src
      · simp [moveAssign, hne]
      · have h1 := count_objs_moveAssign w dst src v hd hs hne hv
        have h2 := disposals_moveAssign w dst src v hv
        simp only [ne_eq, hne, not_false_eq_true, true_and] at h2
        omega

theorem destroyFrom_objs (n : Nat) (w : World) : (destroyFrom n w).objs = w.objs := by
  induction n generalizing w with
  | zero => rfl
  | succ n ih => simp [destroyFrom, ih, dtor]

theorem destroyFrom_count (n : Nat) (w : World) (v : Ptr) (hv : v ≠ nullptr)
    (hn : n ≤ w.objs.length) :
    (destroyFrom n w).deleted.count v = w.deleted.count v + (w.objs.take n).count v := by
  induction n generalizing w with
  | zero => simp [destroyFrom]
  | succ n ih =>
    have hlt : n < w.objs.length := by omega
    have hrec := ih (dtor n w) (by simp [dtor]; omega)
    simp only [destroyFrom]
    rw [hrec]
    have htake : w.objs.take (n + 1) = w.objs.take n ++ [w.objs[n]] := by
      rw [List.take_succ, List.getElem?_eq_getElem hlt]; rfl
    have hd : (dtor n w).deleted.count v =
        w.deleted.count v + (if w.objs[n] = v then 1 else 0) := by
      simp only [dtor]
      rw [count_del _ _ _ hv, objPtr_lt w n hlt]
    have ho : (dtor n w).objs = w.objs := rfl
    rw [hd, ho, htake, List.count_append, List.count_singleton]
    simp only [beq_iff_eq]
    omega

/-- C7: if exactly one object holds the non-null `v` and `v` has not been
disposed, then after every sequence of move constructions and move
assignments among existing objects, followed by the destruction of every
object, `v` has been disposed exactly once (and at most once before the
destructions); the destructor of an empty object disposes nothing. -/
theorem value_disposed_exactly_once (ops : List MoveOp) (w : World) (v : Ptr)
    (hv : v ≠ nullptr) (hone : w.objs.count v = 1) (hlive : w.disposals v = 0)
    (hwf : wellFormed ops w.objs.length = true) :
    (destroyAll (runMoves ops w)).disposals v = 1 ∧
      (runMoves ops w).disposals v ≤ 1 ∧
      ∀ (u : World) (i : Nat), u.objPtr i = nullptr → dtor i u = u := by
  have hcons := runMoves_conserves ops w v hv hwf
  have hlive' : w.deleted.count v = 0 := hlive
  have hall := destroyFrom_count (runMoves ops w).objs.length (runMoves ops w) v hv
    (Nat.le_refl _)
  rw [List.take_length] at hall
  refine ⟨?_, ?_, ?_⟩
  · show (destroyFrom (runMoves ops w).objs.length (runMoves ops w)).deleted.count v = 1
    omega
  · show (runMoves ops w).deleted.count v ≤ 1
    omega
  · intro u i hi
    simp [dtor, hi, del]

theorem value_disposed_exactly_once_witness :
    (destroyAll (runMoves [MoveOp.construct 1, MoveOp.assign 0 2]
        (mainStart 100))).disposals 100 = 1 ∧
      (runMoves [MoveOp.construct 1, MoveOp.assign 0 2] (mainStart 100)).disposals 100 ≤ 1 ∧
      ∀ (u : World) (i : Nat), u.objPtr i = nullptr → dtor i u = u :=
  value_disposed_exactly_once [MoveOp.construct 1, MoveOp.assign 0 2] (mainStart 100) 100
    (by decide) (by decide) (by decide) (by decide)

end UniquePtr

/-! ## Shared ownership: the library-book program -/

namespace Shared

theorem update_eq_set (h : Heap) (i : Nat) (f : ControlBlock → ControlBlock)
    (hi : i < h.length) : update h i f = h.set i (f h[i]) := by
  simp [update, hi]

theorem update_of_le (h : Heap) (i : Nat) (f : ControlBlock → ControlBlock)
    (hi : h.length ≤ i) : update h i f = h := by
  have : h[i]? = none := List.getElem?_eq_none hi
  simp [update, this]

theorem length_update (h : Heap) (i : Nat) (f : ControlBlock → ControlBlock) :
    (update h i f).length = h.length := by
  unfold update
  split <;> simp

theorem getElem?_update (h : Heap) (i j : Nat) (f : ControlBlock → ControlBlock) :
    (update h i f)[j]? = if i = j then (h[j]?).map f else h[j]? := by
  by_cases hi : i < h.length
  · rw [update_eq_set h i f hi, List.getElem?_set]
    by_cases hij : i = j
    · subst hij
      simp [hi]
    · simp [hij]
  · rw [update_of_le h i f (by omega)]
    by_cases hij : i = j
    · subst hij
      have : h[i]? = none := List.getElem?_eq_none (by omega)
      simp [this]
    · simp [hij]

theorem update_last (h : Heap) (cb : ControlBlock) (f : ControlBlock → ControlBlock) :
    update (h ++ [cb]) h.length f = h ++ [f cb] := by
  simp [update]

theorem strongOf_last (h : Heap) (cb : ControlBlock) :
    strongOf (h ++ [cb]) h.length = cb.strongCount := by
  simp [strongOf]

theorem valueDisposalsOf_last (h : Heap) (cb : ControlBlock) :
    valueDisposalsOf (h ++ [cb]) h.length = cb.valueDisposals := by
  simp [valueDisposalsOf]

/-- C8: in `main` of the library-book program, whatever other control blocks
exist: the fresh owner has `use_count() == 1`; after `reader2 = reader1`
every owner sees 2, after `reader3 = reader2` every owner sees 3;
`reader2.reset()` makes `reader2 == nullptr` and the remaining owners see 2;
the printed counts are 1, 2, 3, 2; and the `Book` is disposed exactly once,
by the destruction of the last owner `reader1` (not by the reset, nor by the
destruction of `reader3` or of the empty `reader2`). -/
theorem book_scenario_counts (h0 : Heap) :
    useCount (bookMain h0).reader1 (bookMain h0).afterMake = 1 ∧
      useCount (bookMain h0).reader1 (bookMain h0).afterCopy2 = 2 ∧
      useCount (bookMain h0).reader2 (bookMain h0).afterCopy2 = 2 ∧
      useCount (bookMain h0).reader1 (bookMain h0).afterCopy3 = 3 ∧
      useCount (bookMain h0).reader2 (bookMain h0).afterCopy3 = 3 ∧
      useCount (bookMain h0).reader3 (bookMain h0).afterCopy3 = 3 ∧
      isNull (bookMain h0).reader2AfterReset = true ∧
      useCount (bookMain h0).reader1 (bookMain h0).afterReset = 2 ∧
      useCount (bookMain h0).reader3 (bookMain h0).afterReset = 2 ∧
      (bookMain h0).printed = [1, 2, 3, 2] ∧
      valueDisposalsOf (bookMain h0).afterReset h0.length = 0 ∧
      valueDisposalsOf (bookMain h0).afterDtor3 h0.length = 0 ∧
      useCount (bookMain h0).reader1 (bookMain h0).afterDtor3 = 1 ∧
      valueDisposalsOf (bookMain h0).afterDtor2 h0.length = 0 ∧
      useCount (bookMain h0).reader1 (bookMain h0).afterDtor2 = 1 ∧
      valueDisposalsOf (bookMain h0).afterDtor1 h0.length = 1 := by
  simp [bookMain, makeShared, copyShared, resetShared, detach, useCount, isNull,
    update_last, strongOf_last, valueDisposalsOf_last]

end Shared

/-! ## Weak observation: the chat room -/

namespace Shared

theorem strongOf_update (h : Heap) (i j : Nat) (f : ControlBlock → ControlBlock) :
    strongOf (update h i f) j =
      if i = j then
        (match h[j]? with
          | some cb => (f cb).strongCount
          | none => 0)
      else strongOf h j := by
  simp only [strongOf, getElem?_update]
  by_cases hij : i = j
  · subst hij
    cases h[i]? <;> simp
  · simp [hij]

theorem detach_lock (h : Heap) (i : Nat) (hpos : 0 < strongOf h i) :
    detach (some i)
      (update h i (fun cb => { cb with strongCount := cb.strongCount + 1 })) = h := by
  apply List.ext_getElem?
  intro j
  simp only [detach, getElem?_update]
  by_cases hij : i = j
  · subst hij
    cases hcb : h[i]? with
    | none => simp
    | some cb =>
      have hs : 0 < cb.strongCount := by simpa [strongOf, hcb] using hpos
      have hs' : ¬ cb.strongCount = 0 := by omega
      simp [hs']
  · simp [hij]

theorem expired_eq_false_iff (wp : WeakPtr) (h : Heap) :
    expired wp h = false ↔ ∃ i, wp = some i ∧ 0 < strongOf h i := by
  cases wp with
  | none => simp [expired]
  | some i => simp [expired]; omega

theorem lock_of_live (h : Heap) (i : Nat) (hpos : 0 < strongOf h i) :
    lock (some i) h =
      (some i, update h i (fun cb => { cb with strongCount := cb.strongCount + 1 })) := by
  simp [lock, hpos]

theorem lock_of_expired (wp : WeakPtr) (h : Heap) (he : expired wp h = true) :
    lock wp h = (none, h) := by
  cases wp with
  | none => rfl
  | some i =>
    have : strongOf h i = 0 := by simpa [expired] using he
    simp [lock, this]

theorem strongOf_weakDtor (wp : WeakPtr) (h : Heap) (j : Nat) :
    strongOf (weakDtor wp h) j = strongOf h j := by
  cases wp with
  | none => rfl
  | some i =>
    simp only [weakDtor, strongOf_update]
    by_cases hij : i = j
    · subst hij
      simp only [if_true, strongOf]
    · simp [hij]

theorem expired_weakDtor (wp it : WeakPtr) (h : Heap) :
    expired wp (weakDtor it h) = expired wp h := by
  cases wp with
  | none => rfl
  | some i => simp [expired, strongOf_weakDtor]

/-- The loop of `broadcast`, described: the kept entries, the messages logged
and the strong counts left behind. -/
theorem broadcastLoop_spec (msg : String) (rest : List WeakPtr) :
    ∀ (kept : List WeakPtr) (h : Heap) (log : List (Nat × String)),
      (broadcastLoop msg kept rest h log).1 =
          kept ++ rest.filter (fun wp => !expired wp h) ∧
        (broadcastLoop msg kept rest h log).2.2 =
          log ++ (rest.filter (fun wp => !expired wp h)).map (fun wp => (target wp, msg)) ∧
        ∀ j, strongOf (broadcastLoop msg kept rest h log).2.1 j = strongOf h j := by
  induction rest with
  | nil =>
    intro kept h log
    simp [broadcastLoop]
  | cons it rest ih =>
    intro kept h log
    cases he : expired it h with
    | true =>
      have hl := lock_of_expired it h he
      have hfilter : rest.filter (fun wp => !expired wp (weakDtor it h)) =
          rest.filter (fun wp => !expired wp h) := by
        apply List.filter_congr
        intro x _
        rw [expired_weakDtor]
      obtain ⟨h1, h2, h3⟩ := ih kept (weakDtor it h) log
      simp only [broadcastLoop, hl]
      refine ⟨?_, ?_, ?_⟩
      · rw [h1, hfilter]; simp [he]
      · rw [h2, hfilter]; simp [he]
      · intro j
        rw [h3 j, strongOf_weakDtor]
    | false =>
      obtain ⟨i, hi, hpos⟩ := (expired_eq_false_iff it h).mp he
      subst hi
      have hl := lock_of_live h i hpos
      obtain ⟨h1, h2, h3⟩ := ih (kept ++ [some i]) h (log ++ [(i, msg)])
      simp only [broadcastLoop, hl, detach_lock h i hpos]
      refine ⟨?_, ?_, ?_⟩
      · rw [h1]; simp [he]
      · rw [h2]; simp [he, target]
      · exact h3

/-- C9: `broadcast(msg)` calls `receive(msg)` once through each entry of `users`
that is not expired (its user has a strong count above 0), in the order of the
list, through no other entry, and leaves `users` equal to the original list
with exactly the expired entries removed, order preserved. -/
theorem broadcast_delivers_to_live (msg : String) (w : ChatWorld) :
    (broadcast msg w).received =
        w.received ++
          (w.users.filter (fun wp => !expired wp w.heap)).map (fun wp => (target wp, msg)) ∧
      (broadcast msg w).users = w.users.filter (fun wp => !expired wp w.heap) ∧
      ∀ wp, (expired wp w.heap = false ↔ ∃ i, wp = some i ∧ 0 < strongOf w.heap i) := by
  obtain ⟨h1, h2, _⟩ := broadcastLoop_spec msg w.users [] w.heap w.received
  refine ⟨?_, ?_, ?_⟩
  · simpa [broadcast] using h2
  · simpa [broadcast] using h1
  · intro wp
    exact expired_eq_false_iff wp w.heap

end Shared

namespace Shared

theorem strongOf_join_user (user : SharedPtr) (w : ChatWorld) (j : Nat) :
    strongOf (join_user user w).heap j = strongOf w.heap j := by
  cases user with
  | none => rfl
  | some i =>
    simp only [join_user, copyShared, weakFromShared, detach, strongOf_update,
      getElem?_update]
    by_cases hij : i = j
    · subst hij
      cases hcb : w.heap[i]? with
      | none => simp [strongOf, hcb]
      | some cb =>
        simp only [if_true, Option.map_some', strongOf, hcb, Nat.add_sub_cancel]
        split <;> rfl
    · simp [hij]

/-- C10: after `join_user(user)` and after `broadcast(msg)` the strong count of
every user is what it was before the call: the copy made for the by-value
parameter and the owners obtained by `lock()` are gone again, and the weak
entries of the room do not count. -/
theorem chatroom_keeps_strong_counts (user : SharedPtr) (msg : String) (w : ChatWorld)
    (j : Nat) :
    strongOf (join_user user w).heap j = strongOf w.heap j ∧
      strongOf (broadcast msg w).heap j = strongOf w.heap j := by
  refine ⟨strongOf_join_user user w j, ?_⟩
  obtain ⟨_, _, h3⟩ := broadcastLoop_spec msg w.users [] w.heap w.received
  simpa [broadcast] using h3 j

end Shared

/-! ## `UniquePtr`: `release` and `reset` at the edges -/

namespace UniquePtr

/-- C18 (as stated, refuted): `p2` holds the live value at address 100; after
`p2.reset(p2.get())` it still holds 100, and 100 has been handed to `delete`. -/
theorem reset_to_held_pointer_disposes_it :
    get 1 (mainStart 100) = 100 ∧ 100 ∉ (mainStart 100).deleted ∧
      get 1 (reset 1 100 (mainStart 100)) = 100 ∧
      100 ∈ (reset 1 100 (mainStart 100)).deleted ∧
      (reset 1 100 (mainStart 100)).disposals 100 = 1 := by
  decide

/-- C18 (amended): for an existing object `p` and a non-null pointer `q` to a
live value that is not the pointer `p` holds, after `p.reset(q)` the object
is non-empty, holds `q`, and `q` is still live (it has not been handed to
`delete`). -/
theorem reset_keeps_new_value_live (w : World) (p : Nat) (q : Ptr)
    (hp : p < w.objs.length) (hq : q ≠ nullptr) (hlive : q ∉ w.deleted)
    (hne : q ≠ get p w) :
    get p (reset p q w) = q ∧ toBool p (reset p q w) = true ∧
      q ∉ (reset p q w).deleted ∧ (reset p q w).disposals q = 0 := by
  have hmem : q ∉ (reset p q w).deleted := by
    simp only [reset, deleted_setObjPtr, del]
    split
    · exact hlive
    · intro hin
      rcases List.mem_append.mp hin with h | h
      · exact hlive h
      · exact hne (by simpa [get] using h)
  refine ⟨?_, ?_, hmem, ?_⟩
  · simp [get, reset, objPtr_setObjPtr, hp]
  · simp [toBool, reset, objPtr_setObjPtr, hp, hq]
  · exact List.count_eq_zero_of_not_mem hmem

theorem reset_keeps_new_value_live_witness :
    get 1 (reset 1 200 (mainStart 100)) = 200 ∧
      toBool 1 (reset 1 200 (mainStart 100)) = true ∧
      200 ∉ (reset 1 200 (mainStart 100)).deleted ∧
      (reset 1 200 (mainStart 100)).disposals 200 = 0 :=
  reset_keeps_new_value_live (mainStart 100) 1 200 (by decide) (by decide) (by decide)
    (by decide)

end UniquePtr

/-! ## The file guard `MyFile` -/

namespace RAII

theorem runWrites_eq (this : MyFile) (writes : List (String × Int)) :
    ∀ log : List Event,
      runWrites this writes log =
        (this, log ++ writes.map (fun d => Event.fputs d.1 this.file d.2)) := by
  induction writes with
  | nil => intro log; simp [runWrites]
  | cons d rest ih =>
    intro log
    obtain ⟨data, rc⟩ := d
    have hobj : (writeString this data rc log).2.1 = this := by
      simp only [writeString]; split <;> rfl
    have hlog : (writeString this data rc log).2.2 =
        log ++ [Event.fputs data this.file rc] := by
      simp only [writeString]; split <;> rfl
    simp only [runWrites, hobj, hlog, ih]
    simp

theorem lifetime_of_open (filename mode : String) (h : Handle)
    (writes : List (String × Int)) (hh : h ≠ 0) :
    lifetime filename mode h writes =
      Event.fopen filename mode h ::
        (writes.map (fun d => Event.fputs d.1 h d.2) ++ [Event.fclose h]) := by
  simp [lifetime, ctor, hh, runWrites_eq, dtor]

theorem filter_isClose_fputs (h : Handle) (writes : List (String × Int)) :
    (writes.map (fun d => Event.fputs d.1 h d.2)).filter Event.isClose = [] := by
  induction writes with
  | nil => rfl
  | cons d rest ih => simp [Event.isClose, ih]

/-- C11: when `std::fopen` returns a non-null handle `h`, the constructor
returns, and for every sequence of `writeString` calls (whatever each
`std::fputs` returns) followed by the destructor, the calls made are: the
`fopen`, one `fputs` on `h` per call in order, and last one `fclose(h)` -
the only close, made by the destructor, with no write after it. -/
theorem close_once_at_destruction (filename mode : String) (h : Handle)
    (writes : List (String × Int)) (hh : h ≠ 0) :
    (ctor filename mode h []).1 = Outcome.returned ⟨h⟩ ∧
      lifetime filename mode h writes =
        Event.fopen filename mode h ::
          (writes.map (fun d => Event.fputs d.1 h d.2) ++ [Event.fclose h]) ∧
      (lifetime filename mode h writes).filter Event.isClose = [Event.fclose h] ∧
      (runWrites ⟨h⟩ writes (ctor filename mode h []).2).2.filter Event.isClose = [] := by
  refine ⟨?_, lifetime_of_open filename mode h writes hh, ?_, ?_⟩
  · simp [ctor, hh]
  · rw [lifetime_of_open filename mode h writes hh]
    simp [List.filter_cons, Event.isClose, filter_isClose_fputs]
  · rw [runWrites_eq]
    simp [ctor, hh, List.filter_cons, Event.isClose, filter_isClose_fputs]

theorem close_once_at_destruction_witness :
    (ctor "a.txt" "w" 7 []).1 = Outcome.returned ⟨7⟩ ∧
      lifetime "a.txt" "w" 7 [("abc", 1), ("x", EOF)] =
        Event.fopen "a.txt" "w" 7 ::
          ([("abc", (1 : Int)), ("x", EOF)].map (fun d => Event.fputs d.1 7 d.2) ++
            [Event.fclose 7]) ∧
      (lifetime "a.txt" "w" 7 [("abc", 1), ("x", EOF)]).filter Event.isClose =
        [Event.fclose 7] ∧
      (runWrites ⟨7⟩ [("abc", 1), ("x", EOF)] (ctor "a.txt" "w" 7 []).2).2.filter
        Event.isClose = [] :=
  close_once_at_destruction "a.txt" "w" 7 [("abc", 1), ("x", EOF)] (by decide)

/-- C12: when `std::fopen` fails (returns the null pointer) the constructor
throws `std::runtime_error`, so no object exists; the only call made is the
`fopen`, and in the whole life of that construction `fclose` is never called. -/
theorem failed_open_throws_and_never_closes (filename mode : String)
    (writes : List (String × Int)) (log : List Event) :
    (ctor filename mode 0 log).1 = Outcome.threw ("Failed to open file: " ++ filename) ∧
      (ctor filename mode 0 log).2 = log ++ [Event.fopen filename mode 0] ∧
      lifetime filename mode 0 writes = [Event.fopen filename mode 0] ∧
      (lifetime filename mode 0 writes).filter Event.isClose = [] := by
  simp [ctor, lifetime, Event.isClose]

/-- C13: `writeString` makes one `fputs` call on the held handle and no other
call (in particular no `fclose`); it throws `std::runtime_error` exactly when
`fputs` returns `EOF` and returns normally otherwise; in both cases the
member `file` is unchanged. -/
theorem writeString_keeps_handle (this : MyFile) (data : String) (rc : Int)
    (log : List Event) :
    (writeString this data EOF log).1 = Outcome.threw "Failed to write" ∧
      (writeString this data EOF log).2.1 = this ∧
      (writeString this data EOF log).2.2 = log ++ [Event.fputs data this.file EOF] ∧
      ((writeString this data rc log).1 = Outcome.returned () ↔ rc ≠ EOF) ∧
      (writeString this data rc log).2.1 = this ∧
      (writeString this data rc log).2.2 = log ++ [Event.fputs data this.file rc] := by
  refine ⟨by simp [writeString], by simp [writeString], by simp [writeString], ?_, ?_, ?_⟩
  · by_cases h : rc = EOF <;> simp [writeString, h]
  · by_cases h : rc = EOF <;> simp [writeString, h]
  · by_cases h : rc = EOF <;> simp [writeString, h]

end RAII

/-! ## The string buffer `MyString` -/

namespace MyString

theorem obj_lt (w : World) (i : Nat) (hi : i < w.objs.length) : w.obj i = w.objs[i] := by
  simp [World.obj, hi]

theorem obj_setObj (w : World) (i j : Nat) (o : Obj) :
    (w.setObj i o).obj j = if i = j ∧ i < w.objs.length then o else w.obj j := by
  simp only [World.obj, World.setObj, List.getD_eq_getElem?_getD, List.getElem?_set]
  by_cases hij : i = j
  · subst hij
    by_cases hi : i < w.objs.length
    · simp [hi]
    · have : w.objs[i]? = none := List.getElem?_eq_none (by omega)
      simp [hi, this]
  · simp [hij]

theorem obj_append_lt (objs : List Obj) (heap : List Buffer) (freed : List Ptr)
    (o : Obj) (i : Nat) (hi : i < objs.length) :
    (World.mk (objs ++ [o]) heap freed).obj i = (World.mk objs heap freed).obj i := by
  simp [World.obj, List.getElem?_append_left hi]

theorem obj_append_last (objs : List Obj) (heap : List Buffer) (freed : List Ptr)
    (o : Obj) : (World.mk (objs ++ [o]) heap freed).obj objs.length = o := by
  simp [World.obj]

theorem set_append_last {α : Type} (l : List α) (a b : α) :
    (l ++ [a]).set l.length b = l ++ [b] := by
  induction l with
  | nil => rfl
  | cons x xs ih => simp [ih]

/-- Where `strAt` finds a string there is a live allocated array. -/
theorem strAt_some (w : World) (p : Nat) (cs : List Char) (h : strAt w p = some cs) :
    p ≠ nullptr ∧ p ∉ w.freed ∧ ∃ b, w.heap[p - 1]? = some b ∧ b.chars = cs := by
  unfold strAt at h
  by_cases hc : p = nullptr ∨ p ∈ w.freed
  · simp [hc] at h
  · simp only [hc, if_false, Option.map_eq_some'] at h
    push_neg at hc
    exact ⟨hc.1, hc.2, h⟩

theorem strAt_some_le (w : World) (p : Nat) (cs : List Char) (h : strAt w p = some cs) :
    1 ≤ p ∧ p ≤ w.heap.length := by
  obtain ⟨h0, _, b, hb, _⟩ := strAt_some w p cs h
  have hlt : p - 1 < w.heap.length := by
    by_contra hcon
    have : w.heap[p - 1]? = none := List.getElem?_eq_none (Nat.le_of_not_lt hcon)
    rw [this] at hb
    exact Option.noConfusion hb
  have hp0 : p ≠ 0 := h0
  omega

/-- Allocating further arrays and freeing other arrays does not change the
string found at `p`. -/
theorem strAt_grow (objs objs2 : List Obj) (heap more : List Buffer)
    (freed freed2 : List Ptr) (p : Nat) (cs : List Char)
    (h : strAt ⟨objs, heap, freed⟩ p = some cs) (hf : p ∉ freed2) :
    strAt ⟨objs2, heap ++ more, freed2⟩ p = some cs := by
  obtain ⟨h0, _, b, hb, hbc⟩ := strAt_some _ p cs h
  have hle := (strAt_some_le _ p cs h).2
  have h1 := (strAt_some_le _ p cs h).1
  have hlt : p - 1 < heap.length := by
    have : p ≤ heap.length := hle
    omega
  have hb' : heap[p - 1]? = some b := hb
  unfold strAt
  have hc : ¬ (p = nullptr ∨ p ∈ freed2) := by
    push_neg
    exact ⟨h0, hf⟩
  simp only [hc, if_false]
  rw [List.getElem?_append_left hlt, hb']
  simp [hbc]

/-- `strcpy` into the array allocated last. -/
theorem strcpy_last (objs : List Obj) (heap : List Buffer) (freed : List Ptr)
    (cap : Nat) (cs : List Char) (hcap : cs.length + 1 ≤ cap)
    (hfresh : heap.length + 1 ∉ freed) :
    strcpy (heap.length + 1) cs ⟨objs, heap ++ [⟨cap, []⟩], freed⟩ =
      some ⟨objs, heap ++ [⟨cap, cs⟩], freed⟩ := by
  unfold strcpy
  have hc : ¬ (heap.length + 1 = nullptr ∨ heap.length + 1 ∈ freed) := by
    push_neg
    exact ⟨by simp [nullptr], hfresh⟩
  simp only [hc, if_false, Nat.add_sub_cancel]
  have hget : (heap ++ [(⟨cap, []⟩ : Buffer)])[heap.length]? = some ⟨cap, []⟩ := by simp
  rw [hget]
  simp only [hcap, if_true, set_append_last]

end MyString

namespace MyString

theorem wf_freed (w : World) (h : w.wf = true) : ∀ p ∈ w.freed, p ≤ w.heap.length := by
  simp only [World.wf, Bool.and_eq_true, List.all_eq_true, decide_eq_true_eq] at h
  exact h.1

theorem wf_objs (w : World) (h : w.wf = true) : ∀ o ∈ w.objs, o.m_data ≤ w.heap.length := by
  simp only [World.wf, Bool.and_eq_true, List.all_eq_true, decide_eq_true_eq] at h
  exact h.2

theorem fresh_not_freed (w : World) (h : w.wf = true) : w.heap.length + 1 ∉ w.freed := by
  intro hin
  exact Nat.not_succ_le_self _ (wf_freed w h _ hin)

theorem copyCtor_of_nonempty (w : World) (s : Nat) (cs : List Char)
    (hs : s < w.objs.length) (hwf : w.wf = true) (hsz : size s w ≠ 0)
    (hstr : strAt w (c_str s w) = some cs) (hlen : size s w = cs.length) :
    copyCtor s w =
      some ⟨w.objs ++ [⟨w.heap.length + 1, size s w⟩],
        w.heap ++ [⟨size s w + 1, cs⟩], w.freed⟩ := by
  have hfresh := fresh_not_freed w hwf
  obtain ⟨objs, heap, freed⟩ := w
  have hsz' : ¬ (World.obj ⟨objs, heap, freed⟩ s).m_size = 0 := hsz
  simp only [copyCtor, hsz', ne_eq, not_false_eq_true, if_true, newChars, World.setObj,
    set_append_last]
  have hobj : c_str s ⟨objs ++ [⟨heap.length + 1, (World.obj ⟨objs, heap, freed⟩ s).m_size⟩],
      heap ++ [⟨(World.obj ⟨objs, heap, freed⟩ s).m_size + 1, []⟩], freed⟩ =
      c_str s ⟨objs, heap, freed⟩ := by
    simp only [c_str]
    rw [obj_append_lt _ _ _ _ _ hs]
    rfl
  rw [hobj]
  have hstr2 := strAt_grow objs
    (objs ++ [⟨heap.length + 1, (World.obj ⟨objs, heap, freed⟩ s).m_size⟩]) heap
    [⟨(World.obj ⟨objs, heap, freed⟩ s).m_size + 1, []⟩] freed freed _ cs hstr
    (strAt_some _ _ cs hstr).2.1
  rw [hstr2]
  simp only [Option.some_bind]
  have hcap : cs.length + 1 ≤ (World.obj ⟨objs, heap, freed⟩ s).m_size + 1 := by
    have : (World.obj ⟨objs, heap, freed⟩ s).m_size = cs.length := hlen
    omega
  rw [strcpy_last _ heap freed _ cs hcap hfresh]
  rfl

end MyString

namespace MyString

theorem mem_delArr (p q : Nat) (freed : List Ptr) (h : q ∈ delArr p freed) :
    q ∈ freed ∨ q = p := by
  unfold delArr at h
  split at h
  · exact Or.inl h
  · rcases List.mem_append.mp h with h1 | h1
    · exact Or.inl h1
    · exact Or.inr (by simpa using h1)

/-- The pointers freed once the object in slot `t` has given up its array:
`if (m_size != 0) { delete[] m_data; }`. -/
theorem freedAfterClear_cases (w : World) (t : Nat) (q : Nat)
    (h : q ∈ (if (w.obj t).m_size ≠ 0 then delArr (w.obj t).m_data w.freed else w.freed)) :
    q ∈ w.freed ∨ q = (w.obj t).m_data := by
  split at h
  · exact mem_delArr _ _ _ h
  · exact Or.inl h

theorem copyAssign_of_nonempty (w : World) (t s : Nat) (cs : List Char)
    (ht : t < w.objs.length) (hs : s < w.objs.length) (hts : t ≠ s)
    (hwf : w.wf = true) (hsz : size s w ≠ 0)
    (hstr : strAt w (c_str s w) = some cs) (hlen : size s w = cs.length)
    (halias : c_str t w ≠ c_str s w) :
    copyAssign t s w =
      some ⟨w.objs.set t ⟨w.heap.length + 1, size s w⟩,
        w.heap ++ [⟨size s w + 1, cs⟩],
        if size t w ≠ 0 then delArr (c_str t w) w.freed else w.freed⟩ := by
  have hfresh0 := fresh_not_freed w hwf
  have htle : (w.obj t).m_data ≤ w.heap.length := by
    rw [obj_lt w t ht]
    exact wf_objs w hwf _ (List.getElem_mem ht)
  have hsfree := (strAt_some _ _ cs hstr).2.1
  obtain ⟨objs, heap, freed⟩ := w
  -- the world after `if (m_size != 0) delete[] m_data;`
  have hw0 : (if (World.obj ⟨objs, heap, freed⟩ t).m_size ≠ 0 then
        ({ objs := objs, heap := heap,
           freed := delArr (World.obj ⟨objs, heap, freed⟩ t).m_data freed } : World)
      else ⟨objs, heap, freed⟩) =
      ⟨objs, heap,
        if (World.obj ⟨objs, heap, freed⟩ t).m_size ≠ 0 then
          delArr (World.obj ⟨objs, heap, freed⟩ t).m_data freed
        else freed⟩ := by
    split <;> rfl
  generalize hF : (if (World.obj ⟨objs, heap, freed⟩ t).m_size ≠ 0 then
      delArr (World.obj ⟨objs, heap, freed⟩ t).m_data freed else freed) = F at hw0
  have hFmem : ∀ q, q ∈ F → q ∈ freed ∨ q = (World.obj ⟨objs, heap, freed⟩ t).m_data := by
    intro q hq
    rw [← hF] at hq
    exact freedAfterClear_cases ⟨objs, heap, freed⟩ t q hq
  have hfresh : heap.length + 1 ∉ F := by
    intro hin
    rcases hFmem _ hin with h1 | h1
    · exact hfresh0 h1
    · have h2 : (World.obj ⟨objs, heap, freed⟩ t).m_data ≤ heap.length := htle
      rw [← h1] at h2
      exact Nat.not_succ_le_self _ h2
  have hsF : c_str s ⟨objs, heap, freed⟩ ∉ F := by
    intro hin
    rcases hFmem _ hin with h1 | h1
    · exact hsfree h1
    · exact halias h1.symm
  have hsize : size s ⟨objs, heap, F⟩ = size s ⟨objs, heap, freed⟩ := rfl
  have hsz' : ¬ size s ⟨objs, heap, freed⟩ = 0 := hsz
  have hst : ¬ s = t := fun h => hts h.symm
  simp only [copyAssign, hts, if_false, hw0, hF, hsize, hsz', ne_eq, not_false_eq_true, if_true,
    newChars, World.setObj, List.set_set]
  have hobj : c_str s ⟨objs.set t ⟨heap.length + 1, size s ⟨objs, heap, freed⟩⟩,
      heap ++ [⟨size s ⟨objs, heap, freed⟩ + 1, []⟩], F⟩ = c_str s ⟨objs, heap, freed⟩ := by
    simp only [c_str, World.obj, List.getD_eq_getElem?_getD, List.getElem?_set, hts, if_false]
  rw [hobj]
  have hstr2 := strAt_grow objs (objs.set t ⟨heap.length + 1, size s ⟨objs, heap, freed⟩⟩)
    heap [⟨size s ⟨objs, heap, freed⟩ + 1, []⟩] freed F _ cs hstr hsF
  rw [hstr2]
  simp only [Option.some_bind]
  have hcap : cs.length + 1 ≤ size s ⟨objs, heap, freed⟩ + 1 := by
    have : size s ⟨objs, heap, freed⟩ = cs.length := hlen
    omega
  rw [strcpy_last _ heap F _ cs hcap hfresh, ← hF]
  rfl

end MyString

namespace MyString

theorem mainStart_eq : mainStart = some helloWorld := by decide

/-- C14 (as stated, refuted): `empty` is constructed from the empty string, so
`empty.c_str()` is an array holding no character; its copy `c(empty)` has
`c_str() == nullptr`: there is no buffer holding the characters of `empty`. -/
theorem copy_of_empty_string_has_no_buffer :
    ctor (some []) emptyWorld = some ⟨[⟨1, 0⟩], [⟨1, []⟩], []⟩ ∧
      copyCtor 0 ⟨[⟨1, 0⟩], [⟨1, []⟩], []⟩ =
        some ⟨[⟨1, 0⟩, ⟨0, 0⟩], [⟨1, []⟩], []⟩ ∧
      strAt ⟨[⟨1, 0⟩, ⟨0, 0⟩], [⟨1, []⟩], []⟩
        (c_str 0 ⟨[⟨1, 0⟩, ⟨0, 0⟩], [⟨1, []⟩], []⟩) = some [] ∧
      c_str 1 ⟨[⟨1, 0⟩, ⟨0, 0⟩], [⟨1, []⟩], []⟩ = nullptr ∧
      strAt ⟨[⟨1, 0⟩, ⟨0, 0⟩], [⟨1, []⟩], []⟩
        (c_str 1 ⟨[⟨1, 0⟩, ⟨0, 0⟩], [⟨1, []⟩], []⟩) = none := by
  decide

theorem copyCtor_of_empty (w : World) (e : Nat) (he : size e w = 0) :
    copyCtor e w = some ⟨w.objs ++ [⟨nullptr, 0⟩], w.heap, w.freed⟩ := by
  have he' : (w.obj e).m_size = 0 := he
  simp [copyCtor, he', World.setObj, set_append_last]

/-- Copies of a non-empty source, under explicit assumptions on the state: the
source holds its characters `cs` in a live array and `t` has another array. -/
theorem copy_deep_of_valid (w : World) (s t : Nat) (cs : List Char)
    (hs : s < w.objs.length) (ht : t < w.objs.length) (hts : t ≠ s)
    (hwf : w.wf = true) (hsz : size s w ≠ 0)
    (hstr : strAt w (c_str s w) = some cs) (hlen : size s w = cs.length)
    (halias : c_str t w ≠ c_str s w) :
    (∃ w1, copyCtor s w = some w1 ∧
        size w.objs.length w1 = size s w ∧
        strAt w1 (c_str w.objs.length w1) = some cs ∧
        c_str w.objs.length w1 ≠ c_str s w1 ∧
        w1.obj s = w.obj s ∧ strAt w1 (c_str s w1) = some cs) ∧
      (∃ w2, copyAssign t s w = some w2 ∧
        size t w2 = size s w ∧
        strAt w2 (c_str t w2) = some cs ∧
        c_str t w2 ≠ c_str s w2 ∧
        w2.obj s = w.obj s ∧ strAt w2 (c_str s w2) = some cs) ∧
      (∀ e, size e w = 0 →
        ∃ w3, copyCtor e w = some w3 ∧ size w.objs.length w3 = 0 ∧
          c_str w.objs.length w3 = nullptr ∧ w3.heap = w.heap) := by
  have hfresh0 := fresh_not_freed w hwf
  have hsle := (strAt_some_le w _ cs hstr).2
  have hsfree := (strAt_some w _ cs hstr).2.1
  have htle : (w.obj t).m_data ≤ w.heap.length := by
    rw [obj_lt w t ht]
    exact wf_objs w hwf _ (List.getElem_mem ht)
  have hc1 := copyCtor_of_nonempty w s cs hs hwf hsz hstr hlen
  have hc2 := copyAssign_of_nonempty w t s cs ht hs hts hwf hsz hstr hlen halias
  obtain ⟨objs, heap, freed⟩ := w
  have hst : ¬ s = t := fun h => hts h.symm
  have hsne : c_str s ⟨objs, heap, freed⟩ ≠ heap.length + 1 := by
    intro h
    rw [h] at hsle
    exact Nat.not_succ_le_self _ hsle
  have hlast : ∀ (m : Nat) (F : List Ptr) (o : List Obj), heap.length + 1 ∉ F →
      strAt ⟨o, heap ++ [⟨m, cs⟩], F⟩ (heap.length + 1) = some cs := by
    intro m F o hF
    unfold strAt
    have hc : ¬ (heap.length + 1 = nullptr ∨ heap.length + 1 ∈ F) := by
      push_neg
      exact ⟨by simp [nullptr], hF⟩
    simp [hc]
  refine ⟨⟨_, hc1, ?_, ?_, ?_, ?_, ?_⟩, ⟨_, hc2, ?_, ?_, ?_, ?_, ?_⟩, ?_⟩
  · simp [size, World.obj]
  · have : c_str objs.length ⟨objs ++ [⟨heap.length + 1, size s ⟨objs, heap, freed⟩⟩],
        heap ++ [⟨size s ⟨objs, heap, freed⟩ + 1, cs⟩], freed⟩ = heap.length + 1 := by
      simp [c_str, World.obj]
    rw [this]
    exact hlast _ _ _ hfresh0
  · have h1 : c_str objs.length ⟨objs ++ [⟨heap.length + 1, size s ⟨objs, heap, freed⟩⟩],
        heap ++ [⟨size s ⟨objs, heap, freed⟩ + 1, cs⟩], freed⟩ = heap.length + 1 := by
      simp [c_str, World.obj]
    have h2 : c_str s ⟨objs ++ [⟨heap.length + 1, size s ⟨objs, heap, freed⟩⟩],
        heap ++ [⟨size s ⟨objs, heap, freed⟩ + 1, cs⟩], freed⟩ = c_str s ⟨objs, heap, freed⟩ := by
      simp only [c_str]
      rw [obj_append_lt _ _ _ _ _ hs]
      rfl
    rw [h1, h2]
    exact fun h => hsne h.symm
  · rw [obj_append_lt _ _ _ _ _ hs]
    rfl
  · have h2 : c_str s ⟨objs ++ [⟨heap.length + 1, size s ⟨objs, heap, freed⟩⟩],
        heap ++ [⟨size s ⟨objs, heap, freed⟩ + 1, cs⟩], freed⟩ = c_str s ⟨objs, heap, freed⟩ := by
      simp only [c_str]
      rw [obj_append_lt _ _ _ _ _ hs]
      rfl
    rw [h2]
    exact strAt_grow objs _ heap _ freed freed _ cs hstr hsfree
  · have ht' : t < objs.length := ht
    simp [size, World.obj, ht']
  · have ht' : t < objs.length := ht
    have : c_str t ⟨objs.set t ⟨heap.length + 1, size s ⟨objs, heap, freed⟩⟩,
        heap ++ [⟨size s ⟨objs, heap, freed⟩ + 1, cs⟩],
        if size t ⟨objs, heap, freed⟩ ≠ 0 then delArr (c_str t ⟨objs, heap, freed⟩) freed
        else freed⟩ = heap.length + 1 := by
      simp [c_str, World.obj, ht']
    rw [this]
    apply hlast
    intro hin
    rcases freedAfterClear_cases ⟨objs, heap, freed⟩ t _ hin with h1 | h1
    · exact hfresh0 h1
    · have h2 : (World.obj ⟨objs, heap, freed⟩ t).m_data ≤ heap.length := htle
      rw [← h1] at h2
      exact Nat.not_succ_le_self _ h2
  · have ht' : t < objs.length := ht
    have h1 : c_str t ⟨objs.set t ⟨heap.length + 1, size s ⟨objs, heap, freed⟩⟩,
        heap ++ [⟨size s ⟨objs, heap, freed⟩ + 1, cs⟩],
        if size t ⟨objs, heap, freed⟩ ≠ 0 then delArr (c_str t ⟨objs, heap, freed⟩) freed
        else freed⟩ = heap.length + 1 := by
      simp [c_str, World.obj, ht']
    have h2 : c_str s ⟨objs.set t ⟨heap.length + 1, size s ⟨objs, heap, freed⟩⟩,
        heap ++ [⟨size s ⟨objs, heap, freed⟩ + 1, cs⟩],
        if size t ⟨objs, heap, freed⟩ ≠ 0 then delArr (c_str t ⟨objs, heap, freed⟩) freed
        else freed⟩ = c_str s ⟨objs, heap, freed⟩ := by
      simp only [c_str, World.obj, List.getD_eq_getElem?_getD, List.getElem?_set, hts, if_false]
    rw [h1, h2]
    exact fun h => hsne h.symm
  · simp only [World.obj, List.getD_eq_getElem?_getD, List.getElem?_set, hts, if_false]
  · have h2 : c_str s ⟨objs.set t ⟨heap.length + 1, size s ⟨objs, heap, freed⟩⟩,
        heap ++ [⟨size s ⟨objs, heap, freed⟩ + 1, cs⟩],
        if size t ⟨objs, heap, freed⟩ ≠ 0 then delArr (c_str t ⟨objs, heap, freed⟩) freed
        else freed⟩ = c_str s ⟨objs, heap, freed⟩ := by
      simp only [c_str, World.obj, List.getD_eq_getElem?_getD, List.getElem?_set, hts, if_false]
    rw [h2]
    apply strAt_grow objs _ heap _ freed _ _ cs hstr
    intro hin
    rcases freedAfterClear_cases ⟨objs, heap, freed⟩ t _ hin with h1 | h1
    · exact hsfree h1
    · exact halias h1.symm
  · intro e he
    refine ⟨_, copyCtor_of_empty _ e he, ?_, ?_, rfl⟩
    · simp [size, World.obj]
    · simp [c_str, World.obj]

end MyString

namespace MyString

/-- C15: for existing distinct objects, the move constructor `MyString d(std::move(src))`
and the move assignment `dst = std::move(src)` give the destination the
pointer and the size `src` had, leave `src` with `size() == 0` and
`c_str() == nullptr`, and leave the arrays as they were: nothing is
allocated and no character is copied. -/
theorem move_steals_buffer (w : World) (dst src : Nat)
    (hd : dst < w.objs.length) (hs : src < w.objs.length) (hne : dst ≠ src) :
    (c_str w.objs.length (moveCtor src w) = c_str src w ∧
        size w.objs.length (moveCtor src w) = size src w ∧
        c_str src (moveCtor src w) = nullptr ∧ size src (moveCtor src w) = 0 ∧
        (moveCtor src w).heap = w.heap) ∧
      (c_str dst (moveAssign dst src w) = c_str src w ∧
        size dst (moveAssign dst src w) = size src w ∧
        c_str src (moveAssign dst src w) = nullptr ∧ size src (moveAssign dst src w) = 0 ∧
        (moveAssign dst src w).heap = w.heap) := by
  obtain ⟨objs, heap, freed⟩ := w
  have hd' : dst < objs.length := hd
  have hs' : src < objs.length := hs
  have hsl : src < objs.length + 1 := by omega
  have hne1 : ¬ src = objs.length := by omega
  have hne2 : ¬ src = dst := fun h => hne h.symm
  refine ⟨⟨?_, ?_, ?_, ?_, ?_⟩, ?_⟩
  · simp only [c_str, moveCtor, obj_setObj]
    simp [hne1, World.obj]
  · simp only [size, moveCtor, obj_setObj]
    simp [hne1, World.obj]
  · simp only [c_str, moveCtor, obj_setObj]
    simp [hsl]
  · simp only [size, moveCtor, obj_setObj]
    simp [hsl]
  · simp [moveCtor, World.setObj]
  · have hw0 : (if (World.obj ⟨objs, heap, freed⟩ dst).m_size ≠ 0 then
          ({ objs := objs, heap := heap,
             freed := delArr (World.obj ⟨objs, heap, freed⟩ dst).m_data freed } : World)
        else ⟨objs, heap, freed⟩) =
        ⟨objs, heap,
          if (World.obj ⟨objs, heap, freed⟩ dst).m_size ≠ 0 then
            delArr (World.obj ⟨objs, heap, freed⟩ dst).m_data freed
          else freed⟩ := by
      split <;> rfl
    simp only [moveAssign, hne, if_false, hw0]
    refine ⟨?_, ?_, ?_, ?_, ?_⟩
    · simp only [c_str, obj_setObj]
      simp [hne2, hd', World.setObj, World.obj]
    · simp only [size, obj_setObj]
      simp [hne2, hd', World.setObj, World.obj]
    · simp only [c_str, obj_setObj]
      simp [hs', World.setObj]
    · simp only [size, obj_setObj]
      simp [hs', World.setObj]
    · simp [World.setObj]

theorem move_steals_buffer_witness :
    (c_str helloWorld.objs.length (moveCtor 0 helloWorld) = c_str 0 helloWorld ∧
        size helloWorld.objs.length (moveCtor 0 helloWorld) = size 0 helloWorld ∧
        c_str 0 (moveCtor 0 helloWorld) = nullptr ∧ size 0 (moveCtor 0 helloWorld) = 0 ∧
        (moveCtor 0 helloWorld).heap = helloWorld.heap) ∧
      (c_str 1 (moveAssign 1 0 helloWorld) = c_str 0 helloWorld ∧
        size 1 (moveAssign 1 0 helloWorld) = size 0 helloWorld ∧
        c_str 0 (moveAssign 1 0 helloWorld) = nullptr ∧
        size 0 (moveAssign 1 0 helloWorld) = 0 ∧
        (moveAssign 1 0 helloWorld).heap = helloWorld.heap) :=
  move_steals_buffer helloWorld 1 0 (by decide) (by decide) (by decide)

/-- C16: the copy self-assignment `x = x` and the move self-assignment
`x = std::move(x)` are defined and leave the whole state as it was: the
size and pointer of `x`, every array and its characters, and the list of
freed arrays. -/
theorem self_assign_changes_nothing (w : World) (x : Nat) :
    copyAssign x x w = some w ∧ moveAssign x x w = w ∧
      size x (moveAssign x x w) = size x w ∧ c_str x (moveAssign x x w) = c_str x w ∧
      (moveAssign x x w).heap = w.heap ∧ (moveAssign x x w).freed = w.freed := by
  simp [copyAssign, moveAssign]

/-- C19 (what the code does): `MyString empty;` allocates a one-character
array (address 1) and records size 0; the destructor frees only when
`m_size != 0`, so after the destruction of every object that array has not
been freed. -/
theorem empty_string_buffer_never_freed :
    ctor (some []) emptyWorld = some ⟨[⟨1, 0⟩], [⟨1, []⟩], []⟩ ∧
      destroyAll ⟨[⟨1, 0⟩], [⟨1, []⟩], []⟩ = ⟨[⟨1, 0⟩], [⟨1, []⟩], []⟩ ∧
      (destroyAll ⟨[⟨1, 0⟩], [⟨1, []⟩], []⟩).freed = [] ∧
      leaked (destroyAll ⟨[⟨1, 0⟩], [⟨1, []⟩], []⟩) = [1] := by
  decide

/-- C20 (what the code does): for the null pointer the constructor assigns
`m_data = nullptr; m_size = 0;` and then, having no `return`, goes on to
`std::strlen(str)` on the null pointer: the construction is undefined in every
world, and no object with size 0 and a null buffer results. -/
theorem ctor_nullptr_is_undefined (w : World) :
    strlen none = none ∧ ctor none w = none := by
  simp [ctor, strlen]

end MyString

/-! ## `MyString`: the size agrees with the buffer -/

namespace MyString

theorem obj_ge (w : World) (i : Nat) (hi : w.objs.length ≤ i) : w.obj i = ⟨nullptr, 0⟩ := by
  have : w.objs[i]? = none := List.getElem?_eq_none hi
  simp [World.obj, this]

theorem obj_mk_append (objs : List Obj) (heap : List Buffer) (freed : List Ptr)
    (o : Obj) (j : Nat) :
    (World.mk (objs ++ [o]) heap freed).obj j =
      if j = objs.length then o else (World.mk objs heap freed).obj j := by
  by_cases hj : j = objs.length
  · subst hj
    simp [World.obj]
  · simp only [hj, if_false]
    by_cases hlt : j < objs.length
    · exact obj_append_lt objs heap freed o j hlt
    · rw [obj_ge _ j (by simp; omega), obj_ge _ j (by simp; omega)]

theorem strAt_frame (w u : World) (more : List Buffer) (hh : u.heap = w.heap ++ more)
    (p : Nat) (cs : List Char) (h : strAt w p = some cs) (hf : p ∉ u.freed) :
    strAt u p = some cs := by
  obtain ⟨objs, heap, freed⟩ := w
  obtain ⟨objs2, heap2, freed2⟩ := u
  simp only at hh
  subst hh
  exact strAt_grow objs objs2 heap more freed freed2 p cs h hf

theorem goodObj_le (w : World) (o : Obj) (h : GoodObj w o) : o.m_data ≤ w.heap.length := by
  by_cases h0 : o.m_data = nullptr
  · rw [h0]; exact Nat.zero_le _
  · obtain ⟨cs, hcs, _⟩ := h.2 h0
    exact (strAt_some_le w _ cs hcs).2

theorem goodObj_not_freed (w : World) (o : Obj) (h : GoodObj w o) (h0 : o.m_data ≠ nullptr) :
    o.m_data ∉ w.freed := by
  obtain ⟨cs, hcs, _⟩ := h.2 h0
  exact (strAt_some w _ cs hcs).2.1

theorem inv_wf (w : World) (h : Inv w) : w.wf = true := by
  simp only [World.wf, Bool.and_eq_true, List.all_eq_true, decide_eq_true_eq]
  refine ⟨h.1, ?_⟩
  intro o ho
  obtain ⟨i, hi, hio⟩ := List.getElem_of_mem ho
  have := goodObj_le w _ (h.2.1 i)
  rw [obj_lt w i hi, hio] at this
  exact this

/-- The invariant survives a step that puts a new value `o` in slot `t`
(an old or a new slot), allocates further arrays, and frees at most the array
the slot held. -/
theorem inv_install (w u : World) (t : Nat) (o : Obj) (more : List Buffer)
    (hinv : Inv w) (hh : u.heap = w.heap ++ more)
    (hF : ∀ q ∈ u.freed, q ∈ w.freed ∨ q = (w.obj t).m_data)
    (hobj : ∀ j, u.obj j = if j = t then o else w.obj j)
    (ho : (o.m_data = nullptr ∧ o.m_size = 0) ∨
      (w.heap.length < o.m_data ∧ ∃ cs, strAt u o.m_data = some cs ∧ o.m_size = cs.length)) :
    Inv u := by
  obtain ⟨h1, h2, h3⟩ := hinv
  have hlen : u.heap.length = w.heap.length + more.length := by rw [hh]; simp
  refine ⟨?_, ?_, ?_⟩
  · intro q hq
    rw [hlen]
    rcases hF q hq with hq1 | hq1
    · exact Nat.le_trans (h1 q hq1) (Nat.le_add_right _ _)
    · rw [hq1]
      exact Nat.le_trans (goodObj_le w _ (h2 t)) (Nat.le_add_right _ _)
  · intro j
    rw [hobj j]
    by_cases hjt : j = t
    · simp only [hjt, if_true]
      rcases ho with ⟨hd, hs⟩ | ⟨hd, cs, hcs, hs⟩
      · exact ⟨fun _ => hs, fun hne => absurd hd hne⟩
      · refine ⟨fun h0 => ?_, fun _ => ⟨cs, hcs, hs⟩⟩
        rw [h0] at hd
        exact absurd hd (Nat.not_lt_zero _)
    · simp only [hjt, if_false]
      refine ⟨(h2 j).1, fun hne => ?_⟩
      obtain ⟨cs, hcs, hs⟩ := (h2 j).2 hne
      refine ⟨cs, strAt_frame w u more hh _ cs hcs ?_, hs⟩
      intro hin
      rcases hF _ hin with hq | hq
      · exact goodObj_not_freed w _ (h2 j) hne hq
      · exact h3 j t hjt hne hq
  · intro i j hij hne
    rw [hobj i] at hne ⊢
    rw [hobj j]
    by_cases hit : i = t
    · have hjt : ¬ j = t := fun h => hij (hit.trans h.symm)
      simp only [hit, if_true, hjt, if_false] at hne ⊢
      rcases ho with ⟨hd, _⟩ | ⟨hd, _⟩
      · exact absurd hd hne
      · intro heq
        rw [heq] at hd
        exact absurd (Nat.lt_of_lt_of_le hd (goodObj_le w _ (h2 j))) (Nat.lt_irrefl _)
    · simp only [hit, if_false] at hne ⊢
      by_cases hjt : j = t
      · simp only [hjt, if_true]
        rcases ho with ⟨hd, _⟩ | ⟨hd, _⟩
        · rw [hd]; exact hne
        · intro heq
          rw [← heq] at hd
          exact absurd (Nat.lt_of_lt_of_le hd (goodObj_le w _ (h2 i))) (Nat.lt_irrefl _)
      · simp only [hjt, if_false]
        exact h3 i j hij hne

/-- The invariant survives a step that moves the value of slot `s` into
another slot `t` (an old or a new slot), empties `s`, and frees at most the
array `t` held. -/
theorem inv_move (w u : World) (t s : Nat) (hts : t ≠ s)
    (hinv : Inv w) (hh : u.heap = w.heap)
    (hF : ∀ q ∈ u.freed, q ∈ w.freed ∨ q = (w.obj t).m_data)
    (hobj : ∀ j, u.obj j =
      if j = s then ⟨nullptr, 0⟩ else if j = t then w.obj s else w.obj j) :
    Inv u := by
  obtain ⟨h1, h2, h3⟩ := hinv
  have hh' : u.heap = w.heap ++ [] := by rw [hh]; simp
  have hfree : ∀ k, k ≠ t → (w.obj k).m_data ≠ nullptr → (w.obj k).m_data ∉ u.freed := by
    intro k hkt hne hin
    rcases hF _ hin with hq | hq
    · exact goodObj_not_freed w _ (h2 k) hne hq
    · exact h3 k t hkt hne hq
  have hst : s ≠ t := fun h => hts h.symm
  refine ⟨?_, ?_, ?_⟩
  · intro q hq
    rw [hh]
    rcases hF q hq with hq1 | hq1
    · exact h1 q hq1
    · rw [hq1]
      exact goodObj_le w _ (h2 t)
  · intro j
    rw [hobj j]
    by_cases hjs : j = s
    · simp only [hjs, if_true]
      exact ⟨fun _ => rfl, fun hne => absurd rfl hne⟩
    · simp only [hjs, if_false]
      by_cases hjt : j = t
      · simp only [hjt, if_true]
        refine ⟨(h2 s).1, fun hne => ?_⟩
        obtain ⟨cs, hcs, hs⟩ := (h2 s).2 hne
        exact ⟨cs, strAt_frame w u [] hh' _ cs hcs (hfree s hst hne), hs⟩
      · simp only [hjt, if_false]
        refine ⟨(h2 j).1, fun hne => ?_⟩
        obtain ⟨cs, hcs, hs⟩ := (h2 j).2 hne
        exact ⟨cs, strAt_frame w u [] hh' _ cs hcs (hfree j hjt hne), hs⟩
  · intro i j hij hne
    rw [hobj i] at hne ⊢
    rw [hobj j]
    by_cases his : i = s
    · simp only [his, if_true] at hne
      exact absurd rfl hne
    · simp only [his, if_false] at hne ⊢
      by_cases hjs : j = s
      · simp only [hjs, if_true]
        exact hne
      · simp only [hjs, if_false]
        by_cases hit : i = t
        · have hjt : ¬ j = t := fun h => hij (hit.trans h.symm)
          simp only [hit, if_true, hjt, if_false] at hne ⊢
          exact h3 s j (fun h => hjs h.symm) hne
        · simp only [hit, if_false] at hne ⊢
          by_cases hjt : j = t
          · simp only [hjt, if_true]
            exact h3 i s his hne
          · simp only [hjt, if_false]
            exact h3 i j hij hne

end MyString

namespace MyString

theorem obj_mk_set (objs : List Obj) (heap heap2 : List Buffer) (freed freed2 : List Ptr)
    (o : Obj) (t j : Nat) (ht : t < objs.length) :
    (World.mk (objs.set t o) heap2 freed2).obj j =
      if j = t then o else (World.mk objs heap freed).obj j := by
  simp only [World.obj, List.getD_eq_getElem?_getD, List.getElem?_set]
  by_cases hjt : j = t
  · subst hjt
    simp [ht]
  · have : ¬ t = j := fun h => hjt h.symm
    simp [hjt, this]

theorem strAt_last (objs : List Obj) (heap : List Buffer) (freed : List Ptr) (m : Nat)
    (cs : List Char) (hF : heap.length + 1 ∉ freed) :
    strAt ⟨objs, heap ++ [⟨m, cs⟩], freed⟩ (heap.length + 1) = some cs := by
  unfold strAt
  have hc : ¬ (heap.length + 1 = nullptr ∨ heap.length + 1 ∈ freed) := by
    push_neg
    exact ⟨by simp [nullptr], hF⟩
  simp [hc]

theorem ctor_of_some (w : World) (cs : List Char) (hfresh : w.heap.length + 1 ∉ w.freed) :
    ctor (some cs) w =
      some ⟨w.objs ++ [⟨w.heap.length + 1, cs.length⟩],
        w.heap ++ [⟨cs.length + 1, cs⟩], w.freed⟩ := by
  obtain ⟨objs, heap, freed⟩ := w
  simp only [ctor, strlen, Option.map_some', Option.some_bind, newChars, World.setObj,
    set_append_last]
  exact strcpy_last _ heap freed _ cs (Nat.le_refl _) hfresh

theorem copyAssign_of_empty (w : World) (t e : Nat) (hte : t ≠ e) (he : size e w = 0) :
    copyAssign t e w =
      some ⟨w.objs.set t ⟨nullptr, 0⟩, w.heap,
        if (w.obj t).m_size ≠ 0 then delArr (w.obj t).m_data w.freed else w.freed⟩ := by
  obtain ⟨objs, heap, freed⟩ := w
  have hw0 : (if (World.obj ⟨objs, heap, freed⟩ t).m_size ≠ 0 then
        ({ objs := objs, heap := heap,
           freed := delArr (World.obj ⟨objs, heap, freed⟩ t).m_data freed } : World)
      else ⟨objs, heap, freed⟩) =
      ⟨objs, heap,
        if (World.obj ⟨objs, heap, freed⟩ t).m_size ≠ 0 then
          delArr (World.obj ⟨objs, heap, freed⟩ t).m_data freed
        else freed⟩ := by
    split <;> rfl
  generalize hF : (if (World.obj ⟨objs, heap, freed⟩ t).m_size ≠ 0 then
      delArr (World.obj ⟨objs, heap, freed⟩ t).m_data freed else freed) = F at hw0
  have hsize : size e ⟨objs, heap, F⟩ = 0 := he
  simp only [copyAssign, hte, if_false, hw0, hsize, ne_eq, not_true_eq_false, World.setObj,
    List.set_set]

theorem moveAssign_of_ne (w : World) (t s : Nat) (hts : t ≠ s) :
    moveAssign t s w =
      ⟨(w.objs.set t (w.obj s)).set s ⟨nullptr, 0⟩, w.heap,
        if (w.obj t).m_size ≠ 0 then delArr (w.obj t).m_data w.freed else w.freed⟩ := by
  obtain ⟨objs, heap, freed⟩ := w
  have hw0 : (if (World.obj ⟨objs, heap, freed⟩ t).m_size ≠ 0 then
        ({ objs := objs, heap := heap,
           freed := delArr (World.obj ⟨objs, heap, freed⟩ t).m_data freed } : World)
      else ⟨objs, heap, freed⟩) =
      ⟨objs, heap,
        if (World.obj ⟨objs, heap, freed⟩ t).m_size ≠ 0 then
          delArr (World.obj ⟨objs, heap, freed⟩ t).m_data freed
        else freed⟩ := by
    split <;> rfl
  simp only [moveAssign, hts, if_false, hw0, World.setObj]
  rfl

end MyString

namespace MyString

theorem inv_fresh (w : World) (h : Inv w) : w.heap.length + 1 ∉ w.freed :=
  fun hin => Nat.not_succ_le_self _ (h.1 _ hin)

theorem inv_emptyWorld : Inv emptyWorld := by
  refine ⟨?_, ?_, ?_⟩
  · intro p hp
    simp [emptyWorld] at hp
  · intro i
    have : emptyWorld.obj i = ⟨nullptr, 0⟩ := obj_ge emptyWorld i (Nat.zero_le _)
    rw [this]
    exact ⟨fun _ => rfl, fun hne => absurd rfl hne⟩
  · intro i j _ hne
    have : emptyWorld.obj i = ⟨nullptr, 0⟩ := obj_ge emptyWorld i (Nat.zero_le _)
    rw [this] at hne
    exact absurd rfl hne

theorem step_construct (w : World) (cs : List Char) (h : Inv w) :
    ∃ u, ctor (some cs) w = some u ∧ Inv u ∧ u.objs.length = w.objs.length + 1 ∧
      size w.objs.length u = cs.length := by
  have hfresh := inv_fresh w h
  refine ⟨_, ctor_of_some w cs hfresh, ?_, by simp, by simp [size, World.obj]⟩
  apply inv_install w _ w.objs.length ⟨w.heap.length + 1, cs.length⟩ [⟨cs.length + 1, cs⟩] h rfl
  · intro q hq
    exact Or.inl hq
  · intro j
    exact obj_mk_append w.objs _ _ _ j
  · exact Or.inr ⟨Nat.lt_succ_self _, cs, strAt_last _ w.heap w.freed _ cs hfresh, rfl⟩

theorem step_copyCtor (w : World) (s : Nat) (h : Inv w) (hs : s < w.objs.length) :
    ∃ u, copyCtor s w = some u ∧ Inv u ∧ u.objs.length = w.objs.length + 1 := by
  by_cases hsz : size s w = 0
  · refine ⟨_, copyCtor_of_empty w s hsz, ?_, by simp⟩
    apply inv_install w _ w.objs.length ⟨nullptr, 0⟩ [] h (by simp)
    · intro q hq
      exact Or.inl hq
    · intro j
      exact obj_mk_append w.objs _ _ _ j
    · exact Or.inl ⟨rfl, rfl⟩
  · have hgood := h.2.1 s
    have hne : (w.obj s).m_data ≠ nullptr := fun h0 => hsz (hgood.1 h0)
    obtain ⟨cs, hcs, hlen⟩ := hgood.2 hne
    have hfresh := inv_fresh w h
    refine ⟨_, copyCtor_of_nonempty w s cs hs (inv_wf w h) hsz hcs hlen, ?_, by simp⟩
    apply inv_install w _ w.objs.length ⟨w.heap.length + 1, size s w⟩
      [⟨size s w + 1, cs⟩] h rfl
    · intro q hq
      exact Or.inl hq
    · intro j
      exact obj_mk_append w.objs _ _ _ j
    · exact Or.inr ⟨Nat.lt_succ_self _, cs, strAt_last _ w.heap w.freed _ cs hfresh, hlen⟩

theorem step_moveCtor (w : World) (s : Nat) (h : Inv w) (hs : s < w.objs.length) :
    Inv (moveCtor s w) ∧ (moveCtor s w).objs.length = w.objs.length + 1 := by
  refine ⟨?_, by simp [moveCtor, World.setObj]⟩
  have hts : w.objs.length ≠ s := by omega
  refine inv_move w (moveCtor s w) w.objs.length s hts h rfl ?_ ?_
  · intro q hq
    exact Or.inl hq
  · intro j
    simp only [moveCtor, obj_setObj]
    by_cases hjs : j = s
    · subst hjs
      have hlt : j < (w.objs ++ [(⟨c_str j w, size j w⟩ : Obj)]).length := by simp; omega
      simp only [true_and, hlt, if_true]
    · have hsj : ¬ s = j := fun h => hjs h.symm
      simp only [hsj, false_and, if_false, hjs]
      exact obj_mk_append w.objs _ _ _ j

theorem step_copyAssign (w : World) (t s : Nat) (h : Inv w)
    (ht : t < w.objs.length) (hs : s < w.objs.length) :
    ∃ u, copyAssign t s w = some u ∧ Inv u ∧ u.objs.length = w.objs.length := by
  by_cases hts : t = s
  · exact ⟨w, by simp [copyAssign, hts], h, rfl⟩
  · by_cases hsz : size s w = 0
    · refine ⟨_, copyAssign_of_empty w t s hts hsz, ?_, by simp⟩
      apply inv_install w _ t ⟨nullptr, 0⟩ [] h (by simp)
      · intro q hq
        exact freedAfterClear_cases w t q hq
      · intro j
        exact obj_mk_set w.objs w.heap _ w.freed _ _ t j ht
      · exact Or.inl ⟨rfl, rfl⟩
    · have hgood := h.2.1 s
      have hne : (w.obj s).m_data ≠ nullptr := fun h0 => hsz (hgood.1 h0)
      obtain ⟨cs, hcs, hlen⟩ := hgood.2 hne
      have hfresh := inv_fresh w h
      have halias : c_str t w ≠ c_str s w := fun heq =>
        h.2.2 s t (fun hst => hts hst.symm) hne heq.symm
      refine ⟨_, copyAssign_of_nonempty w t s cs ht hs hts (inv_wf w h) hsz hcs hlen halias,
        ?_, by simp⟩
      have hF : ∀ q ∈ (if size t w ≠ 0 then delArr (c_str t w) w.freed else w.freed),
          q ∈ w.freed ∨ q = (w.obj t).m_data := fun q hq => freedAfterClear_cases w t q hq
      have hfreshF : w.heap.length + 1 ∉
          (if size t w ≠ 0 then delArr (c_str t w) w.freed else w.freed) := by
        intro hin
        rcases hF _ hin with h1 | h1
        · exact hfresh h1
        · have h2 := goodObj_le w _ (h.2.1 t)
          rw [← h1] at h2
          exact Nat.not_succ_le_self _ h2
      apply inv_install w _ t ⟨w.heap.length + 1, size s w⟩ [⟨size s w + 1, cs⟩] h rfl
      · exact hF
      · intro j
        exact obj_mk_set w.objs w.heap _ w.freed _ _ t j ht
      · exact Or.inr ⟨Nat.lt_succ_self _, cs, strAt_last _ w.heap _ _ cs hfreshF, hlen⟩

theorem step_moveAssign (w : World) (t s : Nat) (h : Inv w)
    (ht : t < w.objs.length) (hs : s < w.objs.length) :
    Inv (moveAssign t s w) ∧ (moveAssign t s w).objs.length = w.objs.length := by
  by_cases hts : t = s
  · simp [moveAssign, hts, h]
  · rw [moveAssign_of_ne w t s hts]
    refine ⟨?_, by simp⟩
    refine inv_move w ⟨(w.objs.set t (w.obj s)).set s ⟨nullptr, 0⟩, w.heap,
      if (w.obj t).m_size ≠ 0 then delArr (w.obj t).m_data w.freed else w.freed⟩
      t s hts h rfl ?_ ?_
    · intro q hq
      exact freedAfterClear_cases w t q hq
    · intro j
      have hs' : s < (w.objs.set t (w.obj s)).length := by simp; exact hs
      rw [obj_mk_set (w.objs.set t (w.obj s)) w.heap _ w.freed _ _ s j hs']
      by_cases hjs : j = s
      · simp [hjs]
      · simp only [hjs, if_false]
        exact obj_mk_set w.objs w.heap _ w.freed _ _ t j ht

end MyString

namespace MyString

theorem runOps_inv (ops : List StrOp) :
    ∀ w, Inv w → opsWellFormed ops w.objs.length = true →
      ∃ u, runOps ops w = some u ∧ Inv u := by
  induction ops with
  | nil =>
    intro w h _
    exact ⟨w, rfl, h⟩
  | cons op ops ih =>
    intro w h hwf
    simp only [opsWellFormed, Bool.and_eq_true] at hwf
    obtain ⟨hr, hrest⟩ := hwf
    cases op with
    | construct str =>
      obtain ⟨u, hu, hinv, hlen, _⟩ := step_construct w str h
      simp only [StrOp.constructs, if_true] at hrest
      obtain ⟨v, hv, hvinv⟩ := ih u hinv (by rw [hlen]; exact hrest)
      exact ⟨v, by simp [runOps, StrOp.apply, hu, hv], hvinv⟩
    | copyConstruct src =>
      simp only [StrOp.inRange, decide_eq_true_eq] at hr
      obtain ⟨u, hu, hinv, hlen⟩ := step_copyCtor w src h hr
      simp only [StrOp.constructs, if_true] at hrest
      obtain ⟨v, hv, hvinv⟩ := ih u hinv (by rw [hlen]; exact hrest)
      exact ⟨v, by simp [runOps, StrOp.apply, hu, hv], hvinv⟩
    | moveConstruct src =>
      simp only [StrOp.inRange, decide_eq_true_eq] at hr
      obtain ⟨hinv, hlen⟩ := step_moveCtor w src h hr
      simp only [StrOp.constructs, if_true] at hrest
      obtain ⟨v, hv, hvinv⟩ := ih _ hinv (by rw [hlen]; exact hrest)
      exact ⟨v, by simp [runOps, StrOp.apply, hv], hvinv⟩
    | copyAssign dst src =>
      simp only [StrOp.inRange, Bool.and_eq_true, decide_eq_true_eq] at hr
      obtain ⟨u, hu, hinv, hlen⟩ := step_copyAssign w dst src h hr.1 hr.2
      simp only [StrOp.constructs, Bool.false_eq_true, if_false] at hrest
      obtain ⟨v, hv, hvinv⟩ := ih u hinv (by rw [hlen]; exact hrest)
      exact ⟨v, by simp [runOps, StrOp.apply, hu, hv], hvinv⟩
    | moveAssign dst src =>
      simp only [StrOp.inRange, Bool.and_eq_true, decide_eq_true_eq] at hr
      obtain ⟨hinv, hlen⟩ := step_moveAssign w dst src h hr.1 hr.2
      simp only [StrOp.constructs, Bool.false_eq_true, if_false] at hrest
      obtain ⟨v, hv, hvinv⟩ := ih _ hinv (by rw [hlen]; exact hrest)
      exact ⟨v, by simp [runOps, StrOp.apply, hv], hvinv⟩

/-- C21: every sequence of constructions from non-null C strings, copy and
move constructions and copy and move assignments among existing objects has
a defined result, and in the world it produces every object satisfies: a
non-null buffer pointer is a live array holding exactly `size()` characters before
the terminator, and a null buffer pointer goes with `size() == 0`.  In
particular a further `MyString(str)` has `size()` equal to the length of
`str`, and the default-constructed `MyString` has size 0. -/
theorem size_agrees_with_buffer (ops : List StrOp) (hwf : opsWellFormed ops 0 = true) :
    ∃ w, runOps ops emptyWorld = some w ∧
      (∀ i, i < w.objs.length →
        (c_str i w ≠ nullptr →
          ∃ cs, strAt w (c_str i w) = some cs ∧ size i w = cs.length) ∧
        (c_str i w = nullptr → size i w = 0)) ∧
      (∀ str, ∃ u, ctor (some str) w = some u ∧ size w.objs.length u = str.length) ∧
      (∃ u, ctor (some []) w = some u ∧ size w.objs.length u = 0) := by
  obtain ⟨w, hw, hinv⟩ := runOps_inv ops emptyWorld inv_emptyWorld hwf
  refine ⟨w, hw, ?_, ?_, ?_⟩
  · intro i _
    exact ⟨(hinv.2.1 i).2, (hinv.2.1 i).1⟩
  · intro str
    obtain ⟨u, hu, _, _, hsz⟩ := step_construct w str hinv
    exact ⟨u, hu, hsz⟩
  · obtain ⟨u, hu, _, _, hsz⟩ := step_construct w [] hinv
    exact ⟨u, hu, hsz⟩

theorem size_agrees_with_buffer_witness :
    ∃ w, runOps mainOps emptyWorld = some w ∧
      (∀ i, i < w.objs.length →
        (c_str i w ≠ nullptr →
          ∃ cs, strAt w (c_str i w) = some cs ∧ size i w = cs.length) ∧
        (c_str i w = nullptr → size i w = 0)) ∧
      (∀ str, ∃ u, ctor (some str) w = some u ∧ size w.objs.length u = str.length) ∧
      (∃ u, ctor (some []) w = some u ∧ size w.objs.length u = 0) :=
  size_agrees_with_buffer mainOps (by decide)

end MyString

/-! ## `MyString`: copies of the objects of a program -/

namespace MyString

theorem copyCtor_deep (w : World) (s : Nat) (cs : List Char)
    (hs : s < w.objs.length) (hwf : w.wf = true) (hsz : size s w ≠ 0)
    (hstr : strAt w (c_str s w) = some cs) (hlen : size s w = cs.length) :
    ∃ w1, copyCtor s w = some w1 ∧
      size w.objs.length w1 = size s w ∧
      strAt w1 (c_str w.objs.length w1) = some cs ∧
      strAt w1 (c_str s w1) = some cs ∧
      c_str w.objs.length w1 ≠ c_str s w1 ∧
      w1.obj s = w.obj s := by
  have hfresh0 := fresh_not_freed w hwf
  have hsle := (strAt_some_le w _ cs hstr).2
  have hsfree := (strAt_some w _ cs hstr).2.1
  have hc1 := copyCtor_of_nonempty w s cs hs hwf hsz hstr hlen
  obtain ⟨objs, heap, freed⟩ := w
  have hsne : c_str s ⟨objs, heap, freed⟩ ≠ heap.length + 1 := by
    intro h
    rw [h] at hsle
    exact Nat.not_succ_le_self _ hsle
  have h1 : c_str objs.length ⟨objs ++ [⟨heap.length + 1, size s ⟨objs, heap, freed⟩⟩],
      heap ++ [⟨size s ⟨objs, heap, freed⟩ + 1, cs⟩], freed⟩ = heap.length + 1 := by
    simp [c_str, World.obj]
  have h2 : c_str s ⟨objs ++ [⟨heap.length + 1, size s ⟨objs, heap, freed⟩⟩],
      heap ++ [⟨size s ⟨objs, heap, freed⟩ + 1, cs⟩], freed⟩ = c_str s ⟨objs, heap, freed⟩ := by
    simp only [c_str]
    rw [obj_append_lt _ _ _ _ _ hs]
    rfl
  refine ⟨_, hc1, ?_, ?_, ?_, ?_, ?_⟩
  · simp [size, World.obj]
  · rw [h1]
    exact strAt_last _ heap freed _ cs hfresh0
  · rw [h2]
    exact strAt_grow objs _ heap _ freed freed _ cs hstr hsfree
  · rw [h1, h2]
    exact fun h => hsne h.symm
  · rw [obj_append_lt _ _ _ _ _ hs]
    rfl

theorem copyCtor_null_of_empty (w : World) (s : Nat) (hs : s < w.objs.length)
    (hsz : size s w = 0) :
    ∃ w3, copyCtor s w = some w3 ∧
      size w.objs.length w3 = 0 ∧ c_str w.objs.length w3 = nullptr ∧
      w3.heap = w.heap ∧ w3.obj s = w.obj s ∧
      strAt w3 (c_str s w3) = strAt w (c_str s w) := by
  obtain ⟨objs, heap, freed⟩ := w
  have hobj : (World.mk (objs ++ [⟨nullptr, 0⟩]) heap freed).obj s =
      (World.mk objs heap freed).obj s := obj_append_lt _ _ _ _ _ hs
  refine ⟨_, copyCtor_of_empty _ s hsz, ?_, ?_, rfl, hobj, ?_⟩
  · simp [size, World.obj]
  · simp [c_str, World.obj]
  · simp only [c_str, hobj]
    rfl

theorem copyAssign_null_of_empty (w : World) (t s : Nat) (hinv : Inv w)
    (ht : t < w.objs.length) (hts : t ≠ s) (hsz : size s w = 0) :
    ∃ w4, copyAssign t s w = some w4 ∧
      size t w4 = 0 ∧ c_str t w4 = nullptr ∧
      w4.heap = w.heap ∧ w4.obj s = w.obj s ∧
      strAt w4 (c_str s w4) = strAt w (c_str s w) := by
  have hst : ¬ s = t := fun h => hts h.symm
  have hgood := hinv.2.1 s
  have hnoalias := hinv.2.2 s t hst
  have hobjt : (World.mk (w.objs.set t ⟨nullptr, 0⟩) w.heap
      (if (w.obj t).m_size ≠ 0 then delArr (w.obj t).m_data w.freed else w.freed)).obj t =
      ⟨nullptr, 0⟩ := by
    rw [obj_mk_set w.objs w.heap _ w.freed _ _ t t ht]
    simp
  have hobjs : (World.mk (w.objs.set t ⟨nullptr, 0⟩) w.heap
      (if (w.obj t).m_size ≠ 0 then delArr (w.obj t).m_data w.freed else w.freed)).obj s =
      w.obj s := by
    rw [obj_mk_set w.objs w.heap _ w.freed _ _ t s ht]
    simp [hst]
  refine ⟨_, copyAssign_of_empty w t s hts hsz, ?_, ?_, rfl, hobjs, ?_⟩
  · simp only [size, hobjt]
  · simp only [c_str, hobjt]
  · simp only [c_str, hobjs]
    by_cases h0 : (w.obj s).m_data = nullptr
    · rw [h0]
      simp [strAt]
    · obtain ⟨cs, hcs, _⟩ := hgood.2 h0
      rw [hcs]
      apply strAt_frame w _ [] (by simp) _ cs hcs
      intro hin
      rcases freedAfterClear_cases w t _ hin with h1 | h1
      · exact goodObj_not_freed w _ hgood h0 h1
      · exact hnoalias h0 h1

/-- C14 (amended): in every program state reached by constructions from
non-null C strings, copies and moves, for every object `s`:
if `s.size() != 0`, the copy constructor `MyString c(s)` and, for every other
object `t`, the copy assignment `t = s` are defined and give an object whose
`size()` is `s.size()` and whose `c_str()` holds the characters of
`s.c_str()` in an array at a different address, and `s` is unchanged;
if `s.size() == 0`, both give an object with `size() == 0` and
`c_str() == nullptr`, allocate nothing, and leave `s` unchanged. -/
theorem copy_is_deep_unless_empty (ops : List StrOp) (hwf : opsWellFormed ops 0 = true) :
    ∃ w, runOps ops emptyWorld = some w ∧
      ∀ s, s < w.objs.length →
        (size s w ≠ 0 →
          ∃ cs, strAt w (c_str s w) = some cs ∧
            (∃ w1, copyCtor s w = some w1 ∧
              size w.objs.length w1 = size s w ∧
              strAt w1 (c_str w.objs.length w1) = some cs ∧
              strAt w1 (c_str s w1) = some cs ∧
              c_str w.objs.length w1 ≠ c_str s w1 ∧
              w1.obj s = w.obj s) ∧
            (∀ t, t < w.objs.length → t ≠ s →
              ∃ w2, copyAssign t s w = some w2 ∧
                size t w2 = size s w ∧
                strAt w2 (c_str t w2) = some cs ∧
                strAt w2 (c_str s w2) = some cs ∧
                c_str t w2 ≠ c_str s w2 ∧
                w2.obj s = w.obj s)) ∧
        (size s w = 0 →
          (∃ w3, copyCtor s w = some w3 ∧
            size w.objs.length w3 = 0 ∧ c_str w.objs.length w3 = nullptr ∧
            w3.heap = w.heap ∧ w3.obj s = w.obj s ∧
            strAt w3 (c_str s w3) = strAt w (c_str s w)) ∧
          (∀ t, t < w.objs.length → t ≠ s →
            ∃ w4, copyAssign t s w = some w4 ∧
              size t w4 = 0 ∧ c_str t w4 = nullptr ∧
              w4.heap = w.heap ∧ w4.obj s = w.obj s ∧
              strAt w4 (c_str s w4) = strAt w (c_str s w))) := by
  obtain ⟨w, hw, hinv⟩ := runOps_inv ops emptyWorld inv_emptyWorld hwf
  refine ⟨w, hw, ?_⟩
  intro s hs
  refine ⟨?_, ?_⟩
  · intro hsz
    have hgood := hinv.2.1 s
    have hne : (w.obj s).m_data ≠ nullptr := fun h0 => hsz (hgood.1 h0)
    obtain ⟨cs, hcs, hlen⟩ := hgood.2 hne
    refine ⟨cs, hcs, copyCtor_deep w s cs hs (inv_wf w hinv) hsz hcs hlen, ?_⟩
    intro t ht hts
    have halias : c_str t w ≠ c_str s w := fun heq =>
      hinv.2.2 s t (fun hst => hts hst.symm) hne heq.symm
    obtain ⟨w2, h1, h2, h3, h4, h5, h6⟩ :=
      (copy_deep_of_valid w s t cs hs ht hts (inv_wf w hinv) hsz hcs hlen halias).2.1
    exact ⟨w2, h1, h2, h3, h6, h4, h5⟩
  · intro hsz
    refine ⟨copyCtor_null_of_empty w s hs hsz, ?_⟩
    intro t ht hts
    exact copyAssign_null_of_empty w t s hinv ht hts hsz

theorem copy_is_deep_unless_empty_witness :
    ∃ w, runOps [StrOp.construct ['H', 'e', 'l', 'l', 'o'], StrOp.construct []]
        emptyWorld = some w ∧
      ∀ s, s < w.objs.length →
        (size s w ≠ 0 →
          ∃ cs, strAt w (c_str s w) = some cs ∧
            (∃ w1, copyCtor s w = some w1 ∧
              size w.objs.length w1 = size s w ∧
              strAt w1 (c_str w.objs.length w1) = some cs ∧
              strAt w1 (c_str s w1) = some cs ∧
              c_str w.objs.length w1 ≠ c_str s w1 ∧
              w1.obj s = w.obj s) ∧
            (∀ t, t < w.objs.length → t ≠ s →
              ∃ w2, copyAssign t s w = some w2 ∧
                size t w2 = size s w ∧
                strAt w2 (c_str t w2) = some cs ∧
                strAt w2 (c_str s w2) = some cs ∧
                c_str t w2 ≠ c_str s w2 ∧
                w2.obj s = w.obj s)) ∧
        (size s w = 0 →
          (∃ w3, copyCtor s w = some w3 ∧
            size w.objs.length w3 = 0 ∧ c_str w.objs.length w3 = nullptr ∧
            w3.heap = w.heap ∧ w3.obj s = w.obj s ∧
            strAt w3 (c_str s w3) = strAt w (c_str s w)) ∧
          (∀ t, t < w.objs.length → t ≠ s →
            ∃ w4, copyAssign t s w = some w4 ∧
              size t w4 = 0 ∧ c_str t w4 = nullptr ∧
              w4.heap = w.heap ∧ w4.obj s = w.obj s ∧
              strAt w4 (c_str s w4) = strAt w (c_str s w))) :=
  copy_is_deep_unless_empty [StrOp.construct ['H', 'e', 'l', 'l', 'o'], StrOp.construct []]
    (by decide)

end MyString
